import Mathlib

/-!
Verification of the core of the JILUA LuaJIT-bytecode decompiler.

This file gives a shallow embedding, in Lean 4, of the decompiler's
primitive decoders (`bytecode_reader.rs`), the instruction decoder
(`disasm.rs`, `types.rs`, `op.rs`), the graph substrate
(`graph/graph_impl.rs`), the basic-block resolver (`resolver.rs`) and the
CALL arm of the IR lifter (`lifting.rs`), and proves properties of these
embeddings.

Conventions of the embedding:
* Byte streams are `List Nat` (each element a byte value `< 256`); readers
  take a stream and return the parsed value together with the rest of the
  stream.
* Machine integers are `Nat` (or `Int` for signed values), with explicit
  `% 2^32` (or `% 2^16`) where overflow matters in the source.
* Fallible code returns `RRes`; a Rust `panic!`/`unwrap` failure/
  `unimplemented!`/out-of-bounds slice is the `RRes.fail` outcome, a
  `DecompileError` is `RRes.err`, and exhaustion of the explicit recursion
  fuel (used where the Rust source recurses or loops on mutable state) is
  `RRes.fuelOut`.
-/

namespace JILUA

/-- `DecompileError` from `error.rs`.  The `IO` variant stands for any
underlying read failure (here: running out of input bytes). -/
inductive DErr where
  | ioError
  | invalidULeb128
  | invalidHeaderBytes (reason : String)
  | unknownInsOpcode
  | unexpectedInsOpcode
  | invalidPriValue
  deriving DecidableEq, Repr

/-- Outcome of running embedded code: a value, a `DecompileError`, a Rust
panic/abort, or exhaustion of the modelling fuel. -/
inductive RRes (α : Type) where
  | ok (a : α)
  | err (e : DErr)
  | fail
  | fuelOut
  deriving DecidableEq, Repr

namespace RRes

def bind {α β : Type} : RRes α → (α → RRes β) → RRes β
  | ok a, f => f a
  | err e, _ => err e
  | fail, _ => fail
  | fuelOut, _ => fuelOut

instance : Monad RRes where
  pure := RRes.ok
  bind := RRes.bind

end RRes

/-- `data.read_exact` on a one-byte buffer: take the next byte of the
stream or fail with an IO error. -/
def readByte : List Nat → RRes (Nat × List Nat)
  | [] => .err .ioError
  | b :: rest => .ok (b, rest)

/-! ## ULEB128 decoding (`read_uleb128`, bytecode_reader.rs lines 131-150) -/

/-- The loop body of `read_uleb128`.  `result` and `shift` are the local
mutable variables of the Rust loop; the `shift > 28` test happens before
each byte is read, exactly as in the source. -/
def readUleb128Loop : List Nat → Nat → Nat → RRes (Nat × List Nat)
  | data, result, shift =>
    if shift > 28 then .err .invalidULeb128
    else match data with
      | [] => .err .ioError
      | b :: rest =>
        let result' := (result ||| ((b &&& 0x7f) <<< shift)) % 2 ^ 32
        if b &&& 0x80 == 0 then .ok (result', rest)
        else readUleb128Loop rest result' (shift + 7)

/-- `read_uleb128`: decode a `u32` from at most five ULEB128 bytes. -/
def readUleb128 (data : List Nat) : RRes (Nat × List Nat) :=
  readUleb128Loop data 0 0

/-- Canonical ULEB128 encoding of a value, emitting at most `fuel` bytes
(`fuel = 5` suffices for any `u32`).  This is the encoder side of the
round-trip property stated by the spec; it is not part of the Rust source. -/
def encodeUleb128Go : Nat → Nat → List Nat
  | 0, _ => []
  | fuel + 1, n => if n < 0x80 then [n] else (n % 0x80 + 0x80) :: encodeUleb128Go fuel (n / 0x80)

/-- Canonical 1-to-5-byte ULEB128 encoding of a `u32`. -/
def encodeUleb128 (n : Nat) : List Nat := encodeUleb128Go 5 n

/-! ## 33-bit ULEB128 (`read_uleb128_33`, bytecode_reader.rs lines 152-179) -/

/-- The inner continuation loop of `read_uleb128_33`: OR each further
7-bit group at the current shift (bits beyond position 31 are truncated by
the `u32`), stopping at the first byte below `0x80`.  There is no length
limit in the source. -/
def readUleb12833Loop : List Nat → Nat → Nat → RRes (Nat × List Nat)
  | [], _, _ => .err .ioError
  | b :: rest, v, sh =>
    let v' := (v ||| ((b &&& 0x7f) <<< sh)) % 2 ^ 32
    if b < 0x80 then .ok (v', rest)
    else readUleb12833Loop rest v' (sh + 7)

/-- `read_uleb128_33`: read the top 32 bits of a 33-bit ULEB128 value,
returning the decoded value together with the raw first byte (`tmp`). -/
def readUleb12833 (data : List Nat) : RRes ((Nat × Nat) × List Nat) :=
  match data with
  | [] => .err .ioError
  | b :: rest =>
    let tmp := b
    let v := b >>> 1
    if v ≥ 0x40 then
      match readUleb12833Loop rest (v &&& 0x3f) 6 with
      | .ok (v', rest') => .ok ((v', tmp), rest')
      | .err e => .err e
      | .fail => .fail
      | .fuelOut => .fuelOut
    else .ok ((v, tmp), rest)

/-! ## Operand types (`types.rs`) and instruction field extraction (`disasm.rs`)

Rust newtypes over `u8`/`u16` become `Nat` wrappers; the `From<u8>` /
`From<u16>` conversions of `types.rs` become `fromU8` / `fromU16`
functions.  Signed values (`LitS`, `Jump`) are `Int`. -/

/-- Reinterpret a `u16` bit pattern (a `Nat` reduced mod `2^16`) as an
`i16` value (Rust `as i16`). -/
def toI16 (n : Nat) : Int :=
  if n % 2 ^ 16 < 2 ^ 15 then ((n % 2 ^ 16 : Nat) : Int)
  else ((n % 2 ^ 16 : Nat) : Int) - 2 ^ 16

/-- Reinterpret a `u8` bit pattern as an `i8` value (Rust `transmute` in
`LitS::from<u8>`). -/
def toI8 (n : Nat) : Int :=
  if n % 2 ^ 8 < 2 ^ 7 then ((n % 2 ^ 8 : Nat) : Int)
  else ((n % 2 ^ 8 : Nat) : Int) - 2 ^ 8

/-- Rust `i16` negation.  Negating `i16::MIN` overflows; release builds
wrap it back to `i16::MIN`. -/
def negI16 (x : Int) : Int := if x = -(2 ^ 15) then -(2 ^ 15) else -x

/-- `Jump::from<u16>` (types.rs lines 256-265): the encoded 16-bit value
`val` is decoded by subtracting the `0x8000` bias. -/
def jumpFromU16 (val : Nat) : Int :=
  if val ≥ 0x8000 then toI16 (val - 0x8000)
  else negI16 (toI16 (0x8000 - val))

/-- `Jump::from<u8>` (types.rs lines 249-254): `Jump((0x8000 - val as u16) as i16)`. -/
def jumpFromU8 (val : Nat) : Int := toI16 (0x8000 - val % 2 ^ 8)

/-- `Pri::from<u16>` (types.rs lines 180-189): truncate to `u8`, then map
`{0,1,2}` to the primitive; any other value panics. -/
inductive Pri where
  | nil
  | false
  | true
  deriving DecidableEq, Repr

def priFromU16 (val : Nat) : RRes Pri :=
  match val % 2 ^ 8 with
  | 0 => .ok .nil
  | 1 => .ok .false
  | 2 => .ok .true
  | _ => .fail

def priFromU8 (val : Nat) : RRes Pri :=
  match val with
  | 0 => .ok .nil
  | 1 => .ok .false
  | 2 => .ok .true
  | _ => .fail

/-- `get_op` (disasm.rs): bits 0-7 of the instruction word. -/
def getOp (ins : Nat) : Nat := ins &&& 0xff

/-- `get_a` (disasm.rs): bits 8-15. -/
def getA (ins : Nat) : Nat := (ins >>> 8) &&& 0xff

/-- `get_b` (disasm.rs): bits 16-23. -/
def getB (ins : Nat) : Nat := (ins >>> 16) &&& 0xff

/-- `get_c` (disasm.rs): bits 24-31 (`(ins >> 24) as u8`). -/
def getC (ins : Nat) : Nat := (ins >>> 24) % 2 ^ 8

/-- `get_d` (disasm.rs): bits 16-31 (`(ins >> 16) as u16`). -/
def getD (ins : Nat) : Nat := (ins >>> 16) % 2 ^ 16

/-- `Lit::from<u16>` keeps only the low byte (types.rs lines 102-106). -/
def litFromU16 (val : Nat) : Nat := val &&& 0xff

/-- The `Op` enumeration from `op.rs`.  The Rust operand newtypes
(`Var`, `Dst`, `Base`, `RBase`, `UV`, `Str`, `Num`, `Tab`, `Func`,
`CData`, `Lit`) are transparent wrappers around unsigned integers and are
inlined here to `Nat`; `LitS` and `Jump` are signed and become `Int`. -/
inductive Op where
  | ISLT (a d : Nat)
  | ISGE (a d : Nat)
  | ISLE (a d : Nat)
  | ISGT (a d : Nat)
  | ISEQV (a d : Nat)
  | ISNEV (a d : Nat)
  | ISEQS (a d : Nat)
  | ISNES (a d : Nat)
  | ISEQN (a d : Nat)
  | ISNEN (a d : Nat)
  | ISEQP (a : Nat) (d : Pri)
  | ISNEP (a : Nat) (d : Pri)
  | ISTC (a d : Nat)
  | ISFC (a d : Nat)
  | IST (d : Nat)
  | ISF (d : Nat)
  | ISTYPE (a d : Nat)
  | ISNUM (a d : Nat)
  | MOV (a d : Nat)
  | NOT (a d : Nat)
  | UNM (a d : Nat)
  | LEN (a d : Nat)
  | ADDVN (a b c : Nat)
  | SUBVN (a b c : Nat)
  | MULVN (a b c : Nat)
  | DIVVN (a b c : Nat)
  | MODVN (a b c : Nat)
  | ADDNV (a b c : Nat)
  | SUBNV (a b c : Nat)
  | MULNV (a b c : Nat)
  | DIVNV (a b c : Nat)
  | MODNV (a b c : Nat)
  | ADDVV (a b c : Nat)
  | SUBVV (a b c : Nat)
  | MULVV (a b c : Nat)
  | DIVVV (a b c : Nat)
  | MODVV (a b c : Nat)
  | POW (a b c : Nat)
  | CAT (a b c : Nat)
  | KSTR (a d : Nat)
  | KCDATA (a d : Nat)
  | KSHORT (a : Nat) (d : Int)
  | KNUM (a d : Nat)
  | KPRI (a : Nat) (d : Pri)
  | KNIL (a d : Nat)
  | UGET (a d : Nat)
  | USETV (a d : Nat)
  | USETS (a d : Nat)
  | USETN (a d : Nat)
  | USETP (a : Nat) (d : Pri)
  | UCLO (a : Nat) (d : Int)
  | FNEW (a d : Nat)
  | TNEW (a d : Nat)
  | TDUP (a d : Nat)
  | GGET (a d : Nat)
  | GSET (a d : Nat)
  | TGETV (a b c : Nat)
  | TGETS (a b c : Nat)
  | TGETB (a b c : Nat)
  | TGETR (a b c : Nat)
  | TSETV (a b c : Nat)
  | TSETS (a b c : Nat)
  | TSETB (a b c : Nat)
  | TSETM (a d : Nat)
  | TSETR (a b c : Nat)
  | CALLM (a b c : Nat)
  | CALL (a b c : Nat)
  | CALLMT (a d : Nat)
  | CALLT (a d : Nat)
  | ITERC (a b c : Nat)
  | ITERN (a b c : Nat)
  | VARG (a b c : Nat)
  | ISNEXT (a : Nat) (d : Int)
  | RETM (a d : Nat)
  | RET (a d : Nat)
  | RET0 (a d : Nat)
  | RET1 (a d : Nat)
  | FORI (a : Nat) (d : Int)
  | JFORI (a : Nat) (d : Int)
  | FORL (a : Nat) (d : Int)
  | IFORL (a : Nat) (d : Int)
  | JFORL (a d : Nat)
  | ITERL (a : Nat) (d : Int)
  | IITERL (a : Nat) (d : Int)
  | JITERL (a d : Nat)
  | LOOP (a : Nat) (d : Int)
  | ILOOP (a : Nat) (d : Int)
  | JLOOP (a d : Nat)
  | JMP (a : Nat) (d : Int)
  | FUNCF (a : Nat)
  | IFUNCF (a : Nat)
  | JFUNCF (a d : Nat)
  | FUNCV (a : Nat)
  | IFUNCV (a : Nat)
  | JFUNCV (a d : Nat)
  | FUNCC (a : Nat)
  | FUNCCW (a : Nat)

/-- `disasm` (disasm.rs lines 31-132).  An unknown opcode byte panics in
the source (the final `panic!` arm), as does an out-of-range `Pri`
operand; both are `RRes.fail` here. -/
def disasm (ins : Nat) : RRes Op :=
  match getOp ins with
  | 0x00 => .ok (.ISLT (getA ins) (getD ins))
  | 0x01 => .ok (.ISGE (getA ins) (getD ins))
  | 0x02 => .ok (.ISLE (getA ins) (getD ins))
  | 0x03 => .ok (.ISGT (getA ins) (getD ins))
  | 0x04 => .ok (.ISEQV (getA ins) (getD ins))
  | 0x05 => .ok (.ISNEV (getA ins) (getD ins))
  | 0x06 => .ok (.ISEQS (getA ins) (getD ins))
  | 0x07 => .ok (.ISNES (getA ins) (getD ins))
  | 0x08 => .ok (.ISEQN (getA ins) (getD ins))
  | 0x09 => .ok (.ISNEN (getA ins) (getD ins))
  | 0x0a => do .ok (.ISEQP (getA ins) (← priFromU16 (getD ins)))
  | 0x0b => do .ok (.ISNEP (getA ins) (← priFromU16 (getD ins)))
  | 0x0c => .ok (.ISTC (getA ins) (getD ins))
  | 0x0d => .ok (.ISFC (getA ins) (getD ins))
  | 0x0e => .ok (.IST (getD ins))
  | 0x0f => .ok (.ISF (getD ins))
  | 0x10 => .ok (.ISTYPE (getA ins) (litFromU16 (getD ins)))
  | 0x11 => .ok (.ISNUM (getA ins) (litFromU16 (getD ins)))
  | 0x12 => .ok (.MOV (getA ins) (getD ins))
  | 0x13 => .ok (.NOT (getA ins) (getD ins))
  | 0x14 => .ok (.UNM (getA ins) (getD ins))
  | 0x15 => .ok (.LEN (getA ins) (getD ins))
  | 0x16 => .ok (.ADDVN (getA ins) (getB ins) (getC ins))
  | 0x17 => .ok (.SUBVN (getA ins) (getB ins) (getC ins))
  | 0x18 => .ok (.MULVN (getA ins) (getB ins) (getC ins))
  | 0x19 => .ok (.DIVVN (getA ins) (getB ins) (getC ins))
  | 0x1a => .ok (.MODVN (getA ins) (getB ins) (getC ins))
  | 0x1b => .ok (.ADDNV (getA ins) (getB ins) (getC ins))
  | 0x1c => .ok (.SUBNV (getA ins) (getB ins) (getC ins))
  | 0x1d => .ok (.MULNV (getA ins) (getB ins) (getC ins))
  | 0x1e => .ok (.DIVNV (getA ins) (getB ins) (getC ins))
  | 0x1f => .ok (.MODNV (getA ins) (getB ins) (getC ins))
  | 0x20 => .ok (.ADDVV (getA ins) (getB ins) (getC ins))
  | 0x21 => .ok (.SUBVV (getA ins) (getB ins) (getC ins))
  | 0x22 => .ok (.MULVV (getA ins) (getB ins) (getC ins))
  | 0x23 => .ok (.DIVVV (getA ins) (getB ins) (getC ins))
  | 0x24 => .ok (.MODVV (getA ins) (getB ins) (getC ins))
  | 0x25 => .ok (.POW (getA ins) (getB ins) (getC ins))
  | 0x26 => .ok (.CAT (getA ins) (getB ins) (getC ins))
  | 0x27 => .ok (.KSTR (getA ins) (getD ins))
  | 0x28 => .ok (.KCDATA (getA ins) (getD ins))
  | 0x29 => .ok (.KSHORT (getA ins) (toI8 (litFromU16 (getD ins))))
  | 0x2a => .ok (.KNUM (getA ins) (getD ins))
  | 0x2b => do .ok (.KPRI (getA ins) (← priFromU16 (getD ins)))
  | 0x2c => .ok (.KNIL (getA ins) (getD ins))
  | 0x2d => .ok (.UGET (getA ins) (getD ins))
  | 0x2e => .ok (.USETV (getA ins) (getD ins))
  | 0x2f => .ok (.USETS (getA ins) (getD ins))
  | 0x30 => .ok (.USETN (getA ins) (getD ins))
  | 0x31 => do .ok (.USETP (getA ins) (← priFromU16 (getD ins)))
  | 0x32 => .ok (.UCLO (getA ins) (jumpFromU16 (getD ins)))
  | 0x33 => .ok (.FNEW (getA ins) (getD ins))
  | 0x34 => .ok (.TNEW (getA ins) (litFromU16 (getD ins)))
  | 0x35 => .ok (.TDUP (getA ins) (getD ins))
  | 0x36 => .ok (.GGET (getA ins) (getD ins))
  | 0x37 => .ok (.GSET (getA ins) (getD ins))
  | 0x38 => .ok (.TGETV (getA ins) (getB ins) (getC ins))
  | 0x39 => .ok (.TGETS (getA ins) (getB ins) (getC ins))
  | 0x3a => .ok (.TGETB (getA ins) (getB ins) (getC ins))
  | 0x3b => .ok (.TGETR (getA ins) (getB ins) (getC ins))
  | 0x3c => .ok (.TSETV (getA ins) (getB ins) (getC ins))
  | 0x3d => .ok (.TSETS (getA ins) (getB ins) (getC ins))
  | 0x3e => .ok (.TSETB (getA ins) (getB ins) (getC ins))
  | 0x3f => .ok (.TSETM (getA ins) (getD ins))
  | 0x40 => .ok (.TSETR (getA ins) (getB ins) (getC ins))
  | 0x41 => .ok (.CALLM (getA ins) (getB ins) (getC ins))
  | 0x42 => .ok (.CALL (getA ins) (getB ins) (getC ins))
  | 0x43 => .ok (.CALLMT (getA ins) (litFromU16 (getD ins)))
  | 0x44 => .ok (.CALLT (getA ins) (litFromU16 (getD ins)))
  | 0x45 => .ok (.ITERC (getA ins) (getB ins) (getC ins))
  | 0x46 => .ok (.ITERN (getA ins) (getB ins) (getC ins))
  | 0x47 => .ok (.VARG (getA ins) (getB ins) (getC ins))
  | 0x48 => .ok (.ISNEXT (getA ins) (jumpFromU16 (getD ins)))
  | 0x49 => .ok (.RETM (getA ins) (litFromU16 (getD ins)))
  | 0x4a => .ok (.RET (getA ins) (litFromU16 (getD ins)))
  | 0x4b => .ok (.RET0 (getA ins) (litFromU16 (getD ins)))
  | 0x4c => .ok (.RET1 (getA ins) (litFromU16 (getD ins)))
  | 0x4d => .ok (.FORI (getA ins) (jumpFromU16 (getD ins)))
  | 0x4e => .ok (.JFORI (getA ins) (jumpFromU16 (getD ins)))
  | 0x4f => .ok (.FORL (getA ins) (jumpFromU16 (getD ins)))
  | 0x50 => .ok (.IFORL (getA ins) (jumpFromU16 (getD ins)))
  | 0x51 => .ok (.JFORL (getA ins) (litFromU16 (getD ins)))
  | 0x52 => .ok (.ITERL (getA ins) (jumpFromU16 (getD ins)))
  | 0x53 => .ok (.IITERL (getA ins) (jumpFromU16 (getD ins)))
  | 0x54 => .ok (.JITERL (getA ins) (litFromU16 (getD ins)))
  | 0x55 => .ok (.LOOP (getA ins) (jumpFromU16 (getD ins)))
  | 0x56 => .ok (.ILOOP (getA ins) (jumpFromU16 (getD ins)))
  | 0x57 => .ok (.JLOOP (getA ins) (litFromU16 (getD ins)))
  | 0x58 => .ok (.JMP (getA ins) (jumpFromU16 (getD ins)))
  | 0x59 => .ok (.FUNCF (getA ins))
  | 0x5a => .ok (.IFUNCF (getA ins))
  | 0x5b => .ok (.JFUNCF (getA ins) (litFromU16 (getD ins)))
  | 0x5c => .ok (.FUNCV (getA ins))
  | 0x5d => .ok (.IFUNCV (getA ins))
  | 0x5e => .ok (.JFUNCV (getA ins) (litFromU16 (getD ins)))
  | 0x5f => .ok (.FUNCC (getA ins))
  | 0x60 => .ok (.FUNCCW (getA ins))
  | _ => .fail

/-! ## Graph substrate (`graph/graph_impl.rs`)

`Graph<N, E>` holds a `BTreeMap<u32, Node<N>>` and a `Vec<Edge<E>>`.
The `BTreeMap` is embedded as an association list kept sorted by key
(ascending, unique keys), which is exactly the ordered-map semantics the
resolver relies on.  Rust's `from`/`to` edge fields are named `src`/`dst`
here (`from` is reserved in Lean). -/

structure GNode (N : Type) where
  weight : N
  nextOut : Option Nat
  nextIn : Option Nat
  deriving DecidableEq, Repr

structure GEdge (E : Type) where
  weight : E
  src : Nat
  dst : Nat
  nextOut : Option Nat
  nextIn : Option Nat
  deriving DecidableEq, Repr

structure Graph (N E : Type) where
  nodes : List (Nat × GNode N)
  edges : List (GEdge E)
  deriving DecidableEq, Repr

/-- `BTreeMap::insert` on the sorted association list (replaces the entry
when the key is already present). -/
def insertSorted {N : Type} (k : Nat) (nd : GNode N) :
    List (Nat × GNode N) → List (Nat × GNode N)
  | [] => [(k, nd)]
  | (k', nd') :: t =>
    if k < k' then (k, nd) :: (k', nd') :: t
    else if k = k' then (k, nd) :: t
    else (k', nd') :: insertSorted k nd t

/-- `BTreeMap::get`. -/
def lookupNode {N : Type} : List (Nat × GNode N) → Nat → Option (GNode N)
  | [], _ => none
  | (k', nd) :: t, k => if k = k' then some nd else lookupNode t k

/-- `BTreeMap::get_mut` followed by a mutation of the found node. -/
def updateNode {N : Type} (f : GNode N → GNode N) :
    List (Nat × GNode N) → Nat → List (Nat × GNode N)
  | [], _ => []
  | (k', nd) :: t, k => if k = k' then (k', f nd) :: t else (k', nd) :: updateNode f t k

/-- `try_prev_node`: greatest node key `≤ index`
(`nodes.range(..=index).next_back()`). -/
def tryPrevKey {N : Type} : List (Nat × GNode N) → Nat → Option Nat
  | [], _ => none
  | (k, _) :: t, idx =>
    if k ≤ idx then
      match tryPrevKey t idx with
      | none => some k
      | some r => some r
    else tryPrevKey t idx

/-- `try_next_node`: least node key `≥ index`
(`nodes.range(index..).next()`). -/
def tryNextKey {N : Type} : List (Nat × GNode N) → Nat → Option Nat
  | [], _ => none
  | (k, _) :: t, idx => if idx ≤ k then some k else tryNextKey t idx

namespace Graph

def new {N E : Type} : Graph N E := ⟨[], []⟩

def nodeWeight {N E : Type} (g : Graph N E) (k : Nat) : Option N :=
  (lookupNode g.nodes k).map (·.weight)

def tryPrevNode {N E : Type} (g : Graph N E) (idx : Nat) : Option Nat :=
  tryPrevKey g.nodes idx

def tryNextNode {N E : Type} (g : Graph N E) (idx : Nat) : Option Nat :=
  tryNextKey g.nodes idx

/-- `add_node` with the result ignored (plain `BTreeMap::insert`, as used
by the resolver's scan paths). -/
def insertNode {N E : Type} (g : Graph N E) (k : Nat) (w : N) : Graph N E :=
  { g with nodes := insertSorted k ⟨w, none, none⟩ g.nodes }

/-- `add_edge` (graph_impl.rs lines 232-250): push an edge and prepend it
to the source's outgoing and the target's incoming intrusive lists.  The
two `unwrap`s on missing endpoints panic. -/
def addEdge {N E : Type} (g : Graph N E) (w : E) (src dst : Nat) :
    RRes (Graph N E) :=
  let index := g.edges.length
  match lookupNode g.nodes src with
  | none => .fail
  | some fromNode =>
    let nextOut₀ := fromNode.nextOut
    let nodes1 := updateNode (fun nd => { nd with nextOut := some index }) g.nodes src
    match lookupNode nodes1 dst with
    | none => .fail
    | some toNode =>
      let nextIn₀ := toNode.nextIn
      let nodes2 := updateNode (fun nd => { nd with nextIn := some index }) nodes1 dst
      .ok { nodes := nodes2,
            edges := g.edges ++ [⟨w, src, dst, nextOut₀, nextIn₀⟩] }

/-- The `while let` loop of `split_node` (graph_impl.rs lines 286-293):
walk the outgoing intrusive list, re-sourcing every edge on it at
`newIndex`.  `fuel` bounds the walk (the Rust loop would not terminate on
a cyclic list). -/
def rewriteChain {E : Type} (newIndex : Nat) :
    List (GEdge E) → Option Nat → Nat → RRes (List (GEdge E))
  | edges, none, _ => .ok edges
  | _, some _, 0 => .fuelOut
  | edges, some i, fuel + 1 =>
    match edges.get? i with
    | none => .fail
    | some e => rewriteChain newIndex (edges.set i { e with src := newIndex }) e.nextOut fuel

/-- Specification-side traversal of an outgoing intrusive edge list: the
list of edge indices reached from `next` by following `nextOut` pointers,
or `none` if the walk does not terminate within `fuel` steps or leaves
the edge vector. -/
def chainIdx {E : Type} (edges : List (GEdge E)) : Option Nat → Nat → Option (List Nat)
  | none, _ => some []
  | some _, 0 => none
  | some i, fuel + 1 =>
    match edges.get? i with
    | none => none
    | some e => (chainIdx edges e.nextOut fuel).map (i :: ·)

/-- `split_node` (graph_impl.rs lines 265-296). -/
def splitNode {N E : Type} (g : Graph N E) (index newIndex : Nat)
    (splitter : N → N × N) : RRes (Graph N E) :=
  match lookupNode g.nodes index with
  | none => .fail
  | some node =>
    let nextOut₀ := node.nextOut
    let ws := splitter node.weight
    let nodes1 :=
      updateNode (fun nd => { nd with weight := ws.1, nextOut := none }) g.nodes index
    match lookupNode nodes1 newIndex with
    | some _ => .fail
    | none =>
      let nodes2 := insertSorted newIndex ⟨ws.2, none, none⟩ nodes1
      let nodes3 := updateNode (fun nd => { nd with nextOut := nextOut₀ }) nodes2 newIndex
      match rewriteChain newIndex g.edges nextOut₀ (g.edges.length + 1) with
      | .ok edges' => .ok { nodes := nodes3, edges := edges' }
      | .err e => .err e
      | .fail => .fail
      | .fuelOut => .fuelOut

end Graph

/-! ## Basic-block resolver (`resolver.rs`) -/

/-- `BranchKind` (resolver.rs lines 40-49). -/
inductive BranchKind where
  | True
  | False
  | Unconditional
  | Loop
  | LoopOut
  | LoopBody
  | LoopIter
  deriving DecidableEq, Repr

/-- A resolver `Block` is its vector of raw 32-bit instruction words. -/
abbrev Block := List Nat

/-- The slice `bc[lo..hi]` (exclusive); only used where the source
guarantees `lo ≤ hi ≤ bc.len()`. -/
def sliceExcl (bc : List Nat) (lo hi : Nat) : List Nat := (bc.drop lo).take (hi - lo)

/-- The slice `bc[lo..=hi]` (inclusive); only used where the source
guarantees `lo ≤ hi < bc.len()`. -/
def sliceIncl (bc : List Nat) (lo hi : Nat) : List Nat := (bc.drop lo).take (hi + 1 - lo)

/-- The slice `bc[lo..]`, which panics when `lo > bc.len()`. -/
def sliceFrom (bc : List Nat) (lo : Nat) : RRes (List Nat) :=
  if lo ≤ bc.length then .ok (bc.drop lo) else .fail

/-- `((idx + 1) as i32 + jump.0 as i32) as u32`: the jump target address
computed by the resolver arms, wrapped to `u32`. -/
def destAddr (idx : Nat) (jv : Int) : Nat := (((idx : Int) + 1 + jv).emod (2 ^ 32)).toNat

abbrev RGraph := Graph Block BranchKind

/-- The `for` loop of `recurse_block` (resolver.rs lines 88-292) together
with the fall-off-the-end node emission (lines 294-297).  `recurse` is the
recursive call to `recurse_block` (with one unit of fuel consumed);
`start` is `block_start_idx`, `nb` the pre-computed `next_block`,
`prevCond` the running `prev_cond_idx`, `idx` the loop counter and `rem`
the number of loop iterations left (`bc.length - idx`). -/
def scanBlock (recurse : RGraph → Nat → RRes RGraph) (bc : List Nat)
    (start : Nat) (nb : Option Nat) :
    RGraph → Option Nat → Nat → Nat → RRes RGraph
  | g, _, _, 0 => do
    match sliceFrom bc start with
    | .ok blk => .ok (g.insertNode start blk)
    | .err e => .err e
    | .fail => .fail
    | .fuelOut => .fuelOut
  | g, prevCond, idx, rem + 1 =>
    if some idx = nb then
      -- current offset is the start of the already-existing next node
      match (g.insertNode start (sliceExcl bc start idx)).addEdge .Unconditional start idx with
      | .ok g2 => .ok g2
      | .err e => .err e
      | .fail => .fail
      | .fuelOut => .fuelOut
    else
      match bc.get? idx with
      | none => .fail
      | some w =>
        match disasm w with
        | .err e => .err e
        | .fail => .fail
        | .fuelOut => .fuelOut
        | .ok op =>
          match op with
          | .ISLT _ _ | .ISGE _ _ | .ISLE _ _ | .ISGT _ _ | .ISEQV _ _ | .ISTC _ _
          | .ISNEV _ _ | .ISEQS _ _ | .ISNES _ _ | .ISEQN _ _ | .ISNEN _ _
          | .ISEQP _ _ | .ISNEP _ _ | .IST _ | .ISF _ | .ISFC _ _ =>
            scanBlock recurse bc start nb g (some idx) (idx + 1) rem
          | .ISNEXT _ jv => do
            let g1 := g.insertNode start (sliceIncl bc start idx)
            let dest := destAddr idx jv
            let g2 ← recurse g1 dest
            match g2.tryPrevNode idx with
            | none => .fail
            | some cur => do
              let g3 ← g2.addEdge .LoopIter cur dest
              .ok g3
          | .ITERL _ jv | .IITERL _ jv => do
            let g1 := g.insertNode start (sliceIncl bc start idx)
            let dest := destAddr idx jv
            let g2 ← recurse g1 dest
            match g2.tryPrevNode idx with
            | none => .fail
            | some cur => do
              let g3 ← g2.addEdge .LoopBody cur dest
              let g4 ← recurse g3 (idx + 1)
              match g4.tryPrevNode idx with
              | none => .fail
              | some cur' => do
                let g5 ← g4.addEdge .LoopOut cur' (idx + 1)
                .ok g5
          | .JITERL _ _ => .fail
          | .JFORL _ _ => .fail
          | .FORI _ jv | .JFORI _ jv => do
            let g1 := g.insertNode start (sliceIncl bc start idx)
            let dest := destAddr idx jv
            let g2 ← recurse g1 dest
            match g2.tryPrevNode idx with
            | none => .fail
            | some cur => do
              let g3 ← g2.addEdge .LoopOut cur dest
              let g4 ← recurse g3 (idx + 1)
              match g4.tryPrevNode idx with
              | none => .fail
              | some cur' => do
                let g5 ← g4.addEdge .LoopBody cur' (idx + 1)
                .ok g5
          | .FORL _ jv | .IFORL _ jv => do
            let g1 := g.insertNode start (sliceIncl bc start idx)
            let dest := destAddr idx jv
            let g2 ← recurse g1 dest
            match g2.tryPrevNode idx with
            | none => .fail
            | some cur => do
              let g3 ← g2.addEdge .LoopBody cur dest
              let g4 ← recurse g3 (idx + 1)
              match g4.tryPrevNode idx with
              | none => .fail
              | some cur' => do
                let g5 ← g4.addEdge .LoopOut cur' (idx + 1)
                .ok g5
          | .UCLO _ jv => do
            let g1 := g.insertNode start (sliceIncl bc start idx)
            let dest := destAddr idx jv
            let g2 ← recurse g1 dest
            match g2.tryPrevNode idx with
            | none => .fail
            | some cur => do
              let g3 ← g2.addEdge .Unconditional cur dest
              .ok g3
          | .JMP _ jv => do
            let g1 := g.insertNode start (sliceIncl bc start idx)
            let dest := destAddr idx jv
            let g2 ← recurse g1 dest
            if prevCond.map (· + 1) = some idx then
              match g2.tryPrevNode idx with
              | none => .fail
              | some cur => do
                let g3 ← g2.addEdge .True cur dest
                let g4 ← recurse g3 (idx + 1)
                match g4.tryPrevNode idx with
                | none => .fail
                | some cur' => do
                  let g5 ← g4.addEdge .False cur' (idx + 1)
                  .ok g5
            else
              match g2.tryPrevNode idx with
              | none => .fail
              | some cur => do
                let g3 ← g2.addEdge .Unconditional cur dest
                .ok g3
          | .RET _ _ | .RET0 _ _ | .RET1 _ _ | .RETM _ _ =>
            if idx + 2 ≤ bc.length then
              match bc.get? (idx + 1) with
              | none => .fail
              | some w' =>
                match disasm w' with
                | .err e => .err e
                | .fail => .fail
                | .fuelOut => .fuelOut
                | .ok op' =>
                  match op' with
                  | .JMP _ _ => scanBlock recurse bc start nb g prevCond (idx + 1) rem
                  | _ => .ok (g.insertNode start (sliceIncl bc start idx))
            else .ok (g.insertNode start (sliceIncl bc start idx))
          | _ => scanBlock recurse bc start nb g prevCond (idx + 1) rem

/-- `recurse_block` (resolver.rs lines 51-301), with explicit fuel for the
recursion (each recursive call consumes one unit). -/
def recurseBlock : Nat → List Nat → RGraph → Nat → RRes RGraph
  | 0, _, _, _ => .fuelOut
  | fuel + 1, bc, g, idx =>
    match tryPrevKey g.nodes idx with
    | some prevIdx =>
      if idx = prevIdx then .ok g
      else
        let dist := idx - prevIdx
        match g.nodeWeight prevIdx with
        | none => .fail
        | some block =>
          if block.length > dist then do
            let g1 ← g.splitNode prevIdx idx (fun b => (b.take dist, b.drop dist))
            let g2 ← g1.addEdge .Unconditional prevIdx idx
            .ok g2
          else
            scanBlock (recurseBlock fuel bc) bc idx (tryNextKey g.nodes idx)
              g none idx (bc.length - idx)
    | none =>
      scanBlock (recurseBlock fuel bc) bc idx (tryNextKey g.nodes idx)
        g none idx (bc.length - idx)

/-- `resolve_basic_blocks` (resolver.rs lines 303-309).  The fuel
`bc.length + 2` dominates the recursion depth: every recursive call that
goes on to recurse again has first inserted a node at a fresh key in
`[0, bc.length]`. -/
def resolveBasicBlocks (bc : List Nat) : RRes RGraph :=
  recurseBlock (bc.length + 2) bc Graph.new 0

/-! ## UTF-8 lossy conversion

`read_prototype_global_constants` and `read_prototype_const_table_val`
store strings via `String::from_utf8_lossy(..).to_string()`.  The
following is Rust's lossy decoding on byte lists: valid UTF-8 sequences
are copied, and each maximal invalid subpart is replaced by U+FFFD
(bytes `EF BF BD`). -/

/-- UTF-8 continuation byte test. -/
def isCont (b : Nat) : Bool := 0x80 ≤ b && b ≤ 0xBF

/-- Valid second byte of a three-byte sequence with lead `b`. -/
def valid3 (b c1 : Nat) : Bool :=
  (b = 0xE0 && 0xA0 ≤ c1 && c1 ≤ 0xBF) ||
  (0xE1 ≤ b && b ≤ 0xEC && 0x80 ≤ c1 && c1 ≤ 0xBF) ||
  (b = 0xED && 0x80 ≤ c1 && c1 ≤ 0x9F) ||
  (0xEE ≤ b && b ≤ 0xEF && 0x80 ≤ c1 && c1 ≤ 0xBF)

/-- Valid second byte of a four-byte sequence with lead `b`. -/
def valid4 (b c1 : Nat) : Bool :=
  (b = 0xF0 && 0x90 ≤ c1 && c1 ≤ 0xBF) ||
  (0xF1 ≤ b && b ≤ 0xF3 && 0x80 ≤ c1 && c1 ≤ 0xBF) ||
  (b = 0xF4 && 0x80 ≤ c1 && c1 ≤ 0x8F)

/-- UTF-8 encoding of U+FFFD REPLACEMENT CHARACTER. -/
def replChar : List Nat := [0xEF, 0xBF, 0xBD]

/-- One pass of `String::from_utf8_lossy` on bytes, with `fuel`
(`fuel ≥ length` makes the guard irrelevant; the wrapper passes the
length).  Each maximal invalid subpart, per Rust's UTF-8 validation error
lengths, becomes `replChar`; an incomplete sequence at the end of input
also becomes `replChar` (`rest.getD i 0` is `0`, which is not a
continuation byte, so the incomplete cases fold into the invalid ones
with the same output). -/
def fromUtf8LossyGo : Nat → List Nat → List Nat
  | _, [] => []
  | 0, l => l
  | fuel + 1, b :: rest =>
    if b < 0x80 then b :: fromUtf8LossyGo fuel rest
    else if 0xC2 ≤ b && b ≤ 0xDF then
      if isCont (rest.getD 0 0) then
        b :: rest.getD 0 0 :: fromUtf8LossyGo fuel (rest.drop 1)
      else replChar ++ fromUtf8LossyGo fuel rest
    else if 0xE0 ≤ b && b ≤ 0xEF then
      if valid3 b (rest.getD 0 0) then
        if isCont (rest.getD 1 0) then
          b :: rest.getD 0 0 :: rest.getD 1 0 :: fromUtf8LossyGo fuel (rest.drop 2)
        else replChar ++ fromUtf8LossyGo fuel (rest.drop 1)
      else replChar ++ fromUtf8LossyGo fuel rest
    else if 0xF0 ≤ b && b ≤ 0xF4 then
      if valid4 b (rest.getD 0 0) then
        if isCont (rest.getD 1 0) then
          if isCont (rest.getD 2 0) then
            b :: rest.getD 0 0 :: rest.getD 1 0 :: rest.getD 2 0 ::
              fromUtf8LossyGo fuel (rest.drop 3)
          else replChar ++ fromUtf8LossyGo fuel (rest.drop 2)
        else replChar ++ fromUtf8LossyGo fuel (rest.drop 1)
      else replChar ++ fromUtf8LossyGo fuel rest
    else replChar ++ fromUtf8LossyGo fuel rest

/-- `String::from_utf8_lossy(..)` on a byte list. -/
def fromUtf8Lossy (l : List Nat) : List Nat := fromUtf8LossyGo l.length l

/-- The byte sequences accepted as-is by Rust's UTF-8 validation (a
specification-side predicate used to state the lossless retention of
valid strings), with the same fuel discipline. -/
def utf8ValidGo : Nat → List Nat → Bool
  | _, [] => true
  | 0, _ :: _ => false
  | fuel + 1, b :: rest =>
    if b < 0x80 then utf8ValidGo fuel rest
    else if 0xC2 ≤ b && b ≤ 0xDF then
      isCont (rest.getD 0 0) && utf8ValidGo fuel (rest.drop 1)
    else if 0xE0 ≤ b && b ≤ 0xEF then
      valid3 b (rest.getD 0 0) && isCont (rest.getD 1 0) &&
        utf8ValidGo fuel (rest.drop 2)
    else if 0xF0 ≤ b && b ≤ 0xF4 then
      valid4 b (rest.getD 0 0) && isCont (rest.getD 1 0) &&
        isCont (rest.getD 2 0) && utf8ValidGo fuel (rest.drop 3)
    else false

def utf8Valid (l : List Nat) : Bool := utf8ValidGo l.length l

/-! ## Bytecode dump reader (`bytecode_reader.rs`) -/

def BC_HEAD1 : Nat := 0x1b
def BC_HEAD2 : Nat := 0x4c
def BC_HEAD3 : Nat := 0x4a
def BC_VERSION : Nat := 2

def BC_F_BE : Nat := 0x01
def BC_F_STRIP : Nat := 0x02
def BC_F_FFI : Nat := 0x04
def BC_F_FR2 : Nat := 0x08
def BC_F_KNOWN : Nat := BC_F_FR2 * 2 - 1

/-- The `u32` complement `!BC_F_KNOWN`. -/
def BC_F_KNOWN_COMPL : Nat := 2 ^ 32 - 1 - BC_F_KNOWN

def GC_TYPE_PROTO_CHILD : Nat := 0
def GC_TYPE_TABLE : Nat := 1
def GC_TYPE_I64 : Nat := 2
def GC_TYPE_U64 : Nat := 3
def GC_TYPE_COMPLEX : Nat := 4
def GC_TYPE_STR : Nat := 5

def TABLE_ENTRY_TYPE_NIL : Nat := 0
def TABLE_ENTRY_TYPE_FALSE : Nat := 1
def TABLE_ENTRY_TYPE_TRUE : Nat := 2
def TABLE_ENTRY_TYPE_INT : Nat := 3
def TABLE_ENTRY_TYPE_NUM : Nat := 4
def TABLE_ENTRY_TYPE_STR : Nat := 5

/-- `ConstTableVal` (bytecode_reader.rs lines 121-129); the `String`
payload carries the bytes of the stored (lossy-converted) string. -/
inductive ConstTableVal where
  | Nil
  | True
  | False
  | Int (v : Nat)
  | Num (lo hi : Nat)
  | String (bytes : List Nat)
  deriving DecidableEq, Repr

/-- `ConstTable` (bytecode_reader.rs lines 115-119). -/
structure ConstTable where
  array : List ConstTableVal
  hash : List (ConstTableVal × ConstTableVal)
  deriving DecidableEq, Repr

/-- `GlobalConst` (bytecode_reader.rs lines 100-107). -/
inductive GlobalConst where
  | ProtoChild
  | Table (t : ConstTable)
  | Num (lo hi : Nat)
  | Complex (reLo reHi imLo imHi : Nat)
  | Str (bytes : List Nat)
  deriving DecidableEq, Repr

/-- `NumConst` (bytecode_reader.rs lines 109-113). -/
inductive NumConst where
  | Int (v : Nat)
  | Num (lo hi : Nat)
  deriving DecidableEq, Repr

/-- `ByteCodeProto` (bytecode_reader.rs lines 41-57). -/
structure ByteCodeProto where
  flags : Nat
  numParams : Nat
  frameSize : Nat
  sizeUpValues : Nat
  sizeGlobalConsts : Nat
  sizeNumConsts : Nat
  sizeBc : Nat
  flowGraph : RGraph
  bcRaw : List Nat
  upValues : List Nat
  globalConsts : List GlobalConst
  numConsts : List NumConst
  deriving DecidableEq, Repr

/-- `ByteCodeDump` (bytecode_reader.rs lines 78-86). -/
structure ByteCodeDump where
  magic : List Nat
  version : Nat
  flags : Nat
  name : String
  prototypes : List ByteCodeProto
  deriving DecidableEq, Repr

/-- Take exactly `n` bytes from the stream (`read_exact` into an `n`-byte
buffer). -/
def readExactN (n : Nat) (s : List Nat) : RRes (List Nat × List Nat) :=
  if n ≤ s.length then .ok (s.take n, s.drop n) else .err .ioError

/-- Read one little-endian `u32`. -/
def readU32LE (s : List Nat) : RRes (Nat × List Nat) :=
  match s with
  | b0 :: b1 :: b2 :: b3 :: r => .ok (b0 + b1 * 2 ^ 8 + b2 * 2 ^ 16 + b3 * 2 ^ 24, r)
  | _ => .err .ioError

/-- Read one little-endian `u16`. -/
def readU16LE (s : List Nat) : RRes (Nat × List Nat) :=
  match s with
  | b0 :: b1 :: r => .ok (b0 + b1 * 2 ^ 8, r)
  | _ => .err .ioError

/-- `read_u32_into`: read `n` little-endian `u32` values. -/
def readU32Array : Nat → List Nat → RRes (List Nat × List Nat)
  | 0, s => .ok ([], s)
  | n + 1, s => do
    let (v, s1) ← readU32LE s
    let (vs, s2) ← readU32Array n s1
    .ok (v :: vs, s2)

/-- `read_u16_into`: read `n` little-endian `u16` values. -/
def readU16Array : Nat → List Nat → RRes (List Nat × List Nat)
  | 0, s => .ok ([], s)
  | n + 1, s => do
    let (v, s1) ← readU16LE s
    let (vs, s2) ← readU16Array n s1
    .ok (v :: vs, s2)

/-- `read_header` (bytecode_reader.rs lines 181-220): returns the
`(magic, version, flags)` triple written into the dump. -/
def readHeader (s : List Nat) : RRes ((List Nat × Nat × Nat) × List Nat) :=
  match s with
  | a0 :: a1 :: a2 :: a3 :: rest =>
    if a0 ≠ BC_HEAD1 ∨ a1 ≠ BC_HEAD2 ∨ a2 ≠ BC_HEAD3 then
      .err (.invalidHeaderBytes "Invalid byte code file magic.")
    else if a3 ≠ BC_VERSION then
      .err (.invalidHeaderBytes "Invalid byte code version.")
    else do
      let (flags, rest') ← readUleb128 rest
      if flags &&& BC_F_KNOWN_COMPL ≠ 0 ∨ flags &&& BC_F_FFI = 1 then
        .err (.invalidHeaderBytes "Invalid header flags.")
      else
        .ok (([a0, a1, a2], a3, flags), rest')
  | _ => .err .ioError

/-- `read_prototype_bytecode` (bytecode_reader.rs lines 271-290): read
`sizeBc` instruction words (when non-zero) and resolve the basic-block
graph. -/
def readPrototypeBytecode (sizeBc : Nat) (s : List Nat) :
    RRes ((List Nat × RGraph) × List Nat) := do
  let (bcRaw, s1) ← if sizeBc > 0 then readU32Array sizeBc s else .ok ([], s)
  match resolveBasicBlocks bcRaw with
  | .ok graph => .ok ((bcRaw, graph), s1)
  | .err e => .err e
  | .fail => .fail
  | .fuelOut => .fuelOut

/-- `read_prototype_up_values` (bytecode_reader.rs lines 255-269). -/
def readPrototypeUpValues (sizeUpValues : Nat) (s : List Nat) :
    RRes (List Nat × List Nat) :=
  if sizeUpValues > 0 then readU16Array sizeUpValues s else .ok ([], s)

/-- `read_prototype_const_table_val` (bytecode_reader.rs lines 362-383). -/
def readConstTableVal (s : List Nat) : RRes (ConstTableVal × List Nat) := do
  let (tp, s1) ← readUleb128 s
  if tp = TABLE_ENTRY_TYPE_NIL then .ok (.Nil, s1)
  else if tp = TABLE_ENTRY_TYPE_FALSE then .ok (.False, s1)
  else if tp = TABLE_ENTRY_TYPE_TRUE then .ok (.True, s1)
  else if tp = TABLE_ENTRY_TYPE_INT then do
    let (v, s2) ← readUleb128 s1
    .ok (.Int v, s2)
  else if tp = TABLE_ENTRY_TYPE_NUM then do
    let (lo, s2) ← readUleb128 s1
    let (hi, s3) ← readUleb128 s2
    .ok (.Num lo hi, s3)
  else do
    let len := tp - TABLE_ENTRY_TYPE_STR
    let (bytes, s2) ← readExactN len s1
    .ok (.String (fromUtf8Lossy bytes), s2)

def readConstTableVals : Nat → List Nat → RRes (List ConstTableVal × List Nat)
  | 0, s => .ok ([], s)
  | n + 1, s => do
    let (v, s1) ← readConstTableVal s
    let (vs, s2) ← readConstTableVals n s1
    .ok (v :: vs, s2)

def readConstTablePairs :
    Nat → List Nat → RRes (List (ConstTableVal × ConstTableVal) × List Nat)
  | 0, s => .ok ([], s)
  | n + 1, s => do
    let (k, s1) ← readConstTableVal s
    let (v, s2) ← readConstTableVal s1
    let (kvs, s3) ← readConstTablePairs n s2
    .ok ((k, v) :: kvs, s3)

/-- `read_prototype_const_table` (bytecode_reader.rs lines 292-323). -/
def readConstTable (s : List Nat) : RRes (ConstTable × List Nat) := do
  let (nArray, s1) ← readUleb128 s
  let (nHash, s2) ← readUleb128 s1
  let (array, s3) ← readConstTableVals nArray s2
  let (hash, s4) ← readConstTablePairs nHash s3
  .ok (⟨array, hash⟩, s4)

/-- `read_prototype_global_constants` (bytecode_reader.rs lines 325-359):
read `n` entries of the global-constant pool. -/
def readPrototypeGlobalConstants :
    Nat → List Nat → RRes (List GlobalConst × List Nat)
  | 0, s => .ok ([], s)
  | n + 1, s => do
    let (tp, s1) ← readUleb128 s
    let (gc, s2) ←
      if tp = GC_TYPE_PROTO_CHILD then (.ok (.ProtoChild, s1) : RRes (GlobalConst × List Nat))
      else if tp = GC_TYPE_TABLE then do
        let (t, s2) ← readConstTable s1
        .ok (.Table t, s2)
      else if tp = GC_TYPE_I64 ∨ tp = GC_TYPE_U64 then do
        let (lo, s2) ← readUleb128 s1
        let (hi, s3) ← readUleb128 s2
        .ok (.Num lo hi, s3)
      else if tp = GC_TYPE_COMPLEX then do
        let (x1, s2) ← readUleb128 s1
        let (x2, s3) ← readUleb128 s2
        let (x3, s4) ← readUleb128 s3
        let (x4, s5) ← readUleb128 s4
        .ok (.Complex x1 x2 x3 x4, s5)
      else do
        let len := tp - GC_TYPE_STR
        let (bytes, s2) ← readExactN len s1
        .ok (.Str (fromUtf8Lossy bytes), s2)
    let (gcs, s3) ← readPrototypeGlobalConstants n s2
    .ok (gc :: gcs, s3)

/-- `read_prototype_num_constants` (bytecode_reader.rs lines 385-400). -/
def readPrototypeNumConstants :
    Nat → List Nat → RRes (List NumConst × List Nat)
  | 0, s => .ok ([], s)
  | n + 1, s => do
    let ((lo, first), s1) ← readUleb12833 s
    let (nc, s2) ←
      if first &&& 1 = 1 then do
        let (hi, s2) ← readUleb128 s1
        (.ok (.Num lo hi, s2) : RRes (NumConst × List Nat))
      else .ok (.Int lo, s1)
    let (ncs, s3) ← readPrototypeNumConstants n s2
    .ok (nc :: ncs, s3)

/-- `read_prototype` (bytecode_reader.rs lines 222-253). -/
def readPrototype (s : List Nat) : RRes (ByteCodeProto × List Nat) :=
  match s with
  | a0 :: a1 :: a2 :: a3 :: rest => do
    let (sizeGlobalConsts, s1) ← readUleb128 rest
    let (sizeNumConsts, s2) ← readUleb128 s1
    let (sizeBc, s3) ← readUleb128 s2
    let ((bcRaw, flowGraph), s4) ← readPrototypeBytecode sizeBc s3
    let (upValues, s5) ← readPrototypeUpValues a3 s4
    let (globalConsts, s6) ← readPrototypeGlobalConstants sizeGlobalConsts s5
    let (numConsts, s7) ← readPrototypeNumConstants sizeNumConsts s6
    .ok ({ flags := a0, numParams := a1, frameSize := a2, sizeUpValues := a3,
           sizeGlobalConsts, sizeNumConsts, sizeBc,
           flowGraph, bcRaw, upValues, globalConsts, numConsts }, s7)
  | _ => .err .ioError

/-- The prototype-record loop of `read_bytecode_dump`
(bytecode_reader.rs lines 408-435).  The loop reads a ULEB128 record
length; on any read error it breaks (returning the dump built so far); a
zero length `continue`s; otherwise it copies that many bytes into a
bounded buffer and loads a prototype from the buffer. -/
def readDumpLoop : Nat → List Nat → List ByteCodeProto → RRes (List ByteCodeProto)
  | 0, _, _ => .fuelOut
  | fuel + 1, s, acc =>
    match readUleb128 s with
    | .err _ => .ok acc
    | .fail => .fail
    | .fuelOut => .fuelOut
    | .ok (protoLen, s1) =>
      if protoLen = 0 then readDumpLoop fuel s1 acc
      else do
        let (protoData, s2) ← readExactN protoLen s1
        let (proto, _) ← readPrototype protoData
        readDumpLoop fuel s2 (acc ++ [proto])

/-- `read_bytecode_dump` (bytecode_reader.rs lines 402-438). -/
def readBytecodeDump (s : List Nat) : RRes ByteCodeDump := do
  let ((magic, version, flags), s1) ← readHeader s
  let protos ← readDumpLoop (s1.length + 1) s1 []
  .ok { magic, version, flags, name := "", prototypes := protos }

/-! ## IR lifter (`lifting.rs`, `ir.rs`): the pieces the CALL arm uses -/

/-- `VarInfo` (ir.rs lines 205-227). -/
structure VarInfo where
  name : String
  table : Bool
  upValue : Bool
  usageCnt : Nat
  deriving DecidableEq, Repr

def VarInfo.new (index : Nat) (table upValue : Bool) : VarInfo :=
  ⟨"slot_" ++ toString index, table, upValue, 0⟩

def VarInfo.incrementUsageCounter (v : VarInfo) : VarInfo :=
  { v with usageCnt := v.usageCnt + 1 }

/-- The lifter state (`Lifter`, lifting.rs lines 8-11): the slot table and
the `multres` counter.  Slots are an association list (`HashMap` in the
source; only membership per key matters). -/
structure Lifter where
  slots : List (Nat × VarInfo)
  multres : Nat
  deriving DecidableEq, Repr

def Lifter.new : Lifter := ⟨[], 0⟩

/-- `var_for_slot` (lifting.rs lines 21-32): returns `Var(index)` and
registers/updates the slot entry. -/
def varForSlot (L : Lifter) (index : Nat) (table upValue : Bool) : Nat × Lifter :=
  match L.slots.lookup index with
  | some _ =>
    (index,
      { L with
        slots := L.slots.map fun p =>
          if p.1 = index then (p.1, p.2.incrementUsageCounter) else p })
  | none => (index, { L with slots := (index, VarInfo.new index table upValue) :: L.slots })

/-- `var_for_slot` over a list of slot indices, accumulating the returned
`Var`s in order. -/
def varsForSlots (L : Lifter) : List Nat → List Nat × Lifter
  | [] => ([], L)
  | i :: t =>
    let (v, L1) := varForSlot L i false false
    let (vs, L2) := varsForSlots L1 t
    (v :: vs, L2)

/-- `Expr` (ir.rs lines 6-46).  `Var` payloads are slot numbers; string
payloads are stored string bytes. -/
inductive Expr where
  | Var (v : Nat)
  | Cdata (v : Nat)
  | Str (bytes : List Nat)
  | Num (v : Nat)
  | Lit (v : Nat)
  | Short (v : Int)
  | Uv (v : Nat)
  | Bool (b : Bool)
  | Nil
  | Lt (a b : Expr)
  | Ge (a b : Expr)
  | Le (a b : Expr)
  | Gt (a b : Expr)
  | Eq (a b : Expr)
  | Ne (a b : Expr)
  | Not (a : Expr)
  | Len (a : Expr)
  | Minus (a : Expr)
  | Add (a b : Expr)
  | Sub (a b : Expr)
  | Mul (a b : Expr)
  | Div (a b : Expr)
  | Mod (a b : Expr)
  | Pow (a b : Expr)
  | Closure (v : Nat)
  | GlobalTable
  | Table (t k : Expr)
  deriving DecidableEq, Repr

/-- `Insn` (ir.rs lines 229-242). -/
inductive Insn where
  | SetVars (vars : List Nat) (e : Expr)
  | SetGlobalTableVar (idx val : Expr)
  | SetTableVar (v : Nat) (idx val : Expr)
  | Call (rets : List Nat) (args : List Expr)
  | TailCall (args : List Expr)
  | Cat (v : Nat) (es : List Expr)
  | If (e : Expr)
  | For (es : List Expr)
  | While (e : Expr)
  | Repeat (e : Expr)
  | Return (es : List Expr)
  deriving DecidableEq, Repr

/-- The `Op::CALL(a, b, c)` arm of `Lifter::analyze_bc_proto`
(lifting.rs lines 422-459): computes the updated lifter state and the
emitted `Insn::Call`.  The interleaved pushes of the Rust loop are split
into the argument list and the accumulated extra returns, in the same
order. -/
def liftCALL (L : Lifter) (a b c : Nat) : Lifter × Insn :=
  let retsL1 := if b ≠ 0 then varsForSlots L (List.range' a (b - 1)) else ([], L)
  let rets := retsL1.1
  let L1 := retsL1.2
  if c > 1 then
    let L2 := if b = 0 then { L1 with multres := c - 1 } else L1
    let idxs := List.range' (a + 1) (c - 1)
    let args := Expr.Var a :: idxs.map Expr.Var
    let rets2L3 := if b = 0 then varsForSlots L2 idxs else ([], L2)
    (rets2L3.2, .Call (rets ++ rets2L3.1) args)
  else (L1, .Call rets [Expr.Var a])

/-- The ordering/disjointness invariant of the resolver's node map: keys
strictly increase along the (sorted) association list, and each block's
range `[k, k + len)` ends at or before the next key. -/
def NodesChained (l : List (Nat × GNode Block)) : Prop :=
  l.Pairwise (fun a b => a.1 < b.1 ∧ a.1 + a.2.weight.length ≤ b.1)

/-- Keys strictly increase along the node association list (the `BTreeMap`
ordering invariant). -/
def NodesSorted {N : Type} (l : List (Nat × GNode N)) : Prop :=
  l.Pairwise (fun a b => a.1 < b.1)

/-!
# Theorems

General-purpose lemmas first, then the claim theorems (each preceded by a
doc comment naming the claim it settles) with their witnesses and
counterexamples.
-/

/-! ## Arithmetic and bitwise helper lemmas -/

theorem lor_shiftLeft_eq_add {n : Nat} (a b : Nat) (h : a < 2 ^ n) :
    a ||| (b <<< n) = a + b * 2 ^ n := by
  induction n generalizing a b with
  | zero =>
    have ha : a = 0 := by omega
    subst ha; simp [Nat.shiftLeft_eq]
  | succ n ih =>
    have hd : Nat.div2 a < 2 ^ n := by
      rw [Nat.div2_val]; rw [pow_succ] at h; omega
    have hb : b <<< (n + 1) = Nat.bit false (b <<< n) := by
      simp [Nat.bit, Nat.shiftLeft_eq, pow_succ]; ring
    have ha : Nat.bit (Nat.bodd a) (Nat.div2 a) = a := Nat.bit_decomp a
    conv_lhs => rw [← ha, hb, Nat.lor_bit]
    rw [Bool.or_false, ih _ _ hd]
    cases hba : Nat.bodd a with
    | false =>
      rw [hba] at ha
      simp only [Nat.bit, cond_false, cond_true] at ha ⊢
      conv_rhs => rw [← ha, pow_succ]
      ring
    | true =>
      rw [hba] at ha
      simp only [Nat.bit, cond_false, cond_true] at ha ⊢
      conv_rhs => rw [← ha, pow_succ]
      ring

theorem land_127_eq_mod (x : Nat) : x &&& 127 = x % 128 :=
  Nat.and_pow_two_sub_one_eq_mod x 7

theorem land_128_of_lt {x : Nat} (h : x < 128) : x &&& 128 = 0 := by
  have h7 : x.testBit 7 = false := Nat.testBit_lt_two_pow h
  have := Nat.and_two_pow x 7
  norm_num at this
  rw [this, h7]
  rfl

theorem land_128_of_ge {x : Nat} (h1 : 128 ≤ x) (h2 : x < 256) : x &&& 128 = 128 := by
  have h7 : x.testBit 7 = true := by
    simp only [Nat.testBit_to_div_mod]
    norm_num
    omega
  have := Nat.and_two_pow x 7
  norm_num at this
  rw [this, h7]
  rfl

/-! ## ULEB128 round-trip (claim C6) -/

theorem encodeUleb128Go_spec (fuel : Nat) :
    ∀ (n result shift : Nat) (rest : List Nat),
      n < 128 ^ (fuel + 1) →
      n < 2 ^ (32 - shift) →
      result < 2 ^ shift →
      shift ≤ 28 →
      shift % 7 = 0 →
      readUleb128Loop (encodeUleb128Go (fuel + 1) n ++ rest) result shift
        = .ok (result + n * 2 ^ shift, rest) := by
  induction fuel with
  | zero =>
    intro n result shift rest hn h32 hres hsh hsh7
    have hn128 : n < 128 := by simpa using hn
    have hmod : n &&& 127 = n := by rw [land_127_eq_mod]; omega
    have hcont : n &&& 128 = 0 := land_128_of_lt hn128
    have hsum : result + n * 2 ^ shift < 2 ^ 32 := by
      have h1 : n + 1 ≤ 2 ^ (32 - shift) := h32
      have h2 : (n + 1) * 2 ^ shift ≤ 2 ^ (32 - shift) * 2 ^ shift :=
        Nat.mul_le_mul_right _ h1
      have h3 : 2 ^ (32 - shift) * 2 ^ shift = 2 ^ 32 := by
        rw [← pow_add]; congr 1; omega
      have h4 : result + n * 2 ^ shift < 2 ^ shift + n * 2 ^ shift := by
        omega
      calc result + n * 2 ^ shift < 2 ^ shift + n * 2 ^ shift := h4
        _ = (n + 1) * 2 ^ shift := by ring
        _ ≤ 2 ^ 32 := h3 ▸ h2
    simp only [encodeUleb128Go, if_pos hn128, List.cons_append, List.nil_append]
    rw [readUleb128Loop]
    simp only [if_neg (by omega : ¬ shift > 28), hmod, hcont,
      lor_shiftLeft_eq_add _ _ hres, Nat.mod_eq_of_lt hsum]
    simp
  | succ fuel ih =>
    intro n result shift rest hn h32 hres hsh hsh7
    by_cases hn128 : n < 128
    · have hmod : n &&& 127 = n := by rw [land_127_eq_mod]; omega
      have hcont : n &&& 128 = 0 := land_128_of_lt hn128
      have hsum : result + n * 2 ^ shift < 2 ^ 32 := by
        have h2 : (n + 1) * 2 ^ shift ≤ 2 ^ (32 - shift) * 2 ^ shift :=
          Nat.mul_le_mul_right _ h32
        have h3 : 2 ^ (32 - shift) * 2 ^ shift = 2 ^ 32 := by
          rw [← pow_add]; congr 1; omega
        have h4 : result + n * 2 ^ shift < (n + 1) * 2 ^ shift := by
          have := Nat.pos_pow_of_pos shift (by norm_num : 0 < 2)
          nlinarith
        omega
      simp only [encodeUleb128Go, if_pos hn128, List.cons_append, List.nil_append]
      rw [readUleb128Loop]
      simp only [if_neg (by omega : ¬ shift > 28), hmod, hcont,
        lor_shiftLeft_eq_add _ _ hres, Nat.mod_eq_of_lt hsum]
      simp
    · -- continuation byte, then recurse on `n / 128` at `shift + 7`
      have hshift21 : shift ≤ 21 := by
        by_contra hgt
        have hs : shift = 28 := by omega
        subst hs
        have : n < 2 ^ 4 := by simpa using h32
        omega
      have hbyte : n % 128 + 128 &&& 127 = n % 128 := by
        rw [land_127_eq_mod]; omega
      have hcont : n % 128 + 128 &&& 128 = 128 :=
        land_128_of_ge (by omega) (by omega)
      have hres' : result + n % 128 * 2 ^ shift < 2 ^ (shift + 7) := by
        have h1 : n % 128 ≤ 127 := by omega
        have h2 : n % 128 * 2 ^ shift ≤ 127 * 2 ^ shift :=
          Nat.mul_le_mul_right _ h1
        have h3 : 2 ^ (shift + 7) = 128 * 2 ^ shift := by
          rw [pow_add]; ring
        omega
      have hlt32 : result + n % 128 * 2 ^ shift < 2 ^ 32 := by
        have : (2 : Nat) ^ (shift + 7) ≤ 2 ^ 32 :=
          Nat.pow_le_pow_right (by norm_num) (by omega)
        omega
      have henc : encodeUleb128Go (fuel + 1 + 1) n
          = (n % 128 + 128) :: encodeUleb128Go (fuel + 1) (n / 128) := by
        rw [encodeUleb128Go, if_neg hn128]
      rw [henc]
      simp only [List.cons_append]
      rw [readUleb128Loop]
      simp only [if_neg (by omega : ¬ shift > 28), hbyte, hcont,
        lor_shiftLeft_eq_add _ _ hres, Nat.mod_eq_of_lt hlt32]
      norm_num
      rw [ih (n / 128) (result + n % 128 * 2 ^ shift) (shift + 7) rest
        (by apply Nat.div_lt_of_lt_mul
            calc n < 128 ^ (fuel + 1 + 1) := hn
              _ = 128 * 128 ^ (fuel + 1) := by rw [pow_succ]; ring)
        (by apply Nat.div_lt_of_lt_mul
            have hk : (128 : Nat) * 2 ^ (32 - (shift + 7)) = 2 ^ (32 - shift) := by
              have h7 : (128 : Nat) = 2 ^ 7 := by norm_num
              rw [h7, ← pow_add]
              congr 1
              omega
            rw [hk]
            exact h32)
        hres' (by omega) (by omega)]
      have hsum : n % 128 * 2 ^ shift + n / 128 * 2 ^ (shift + 7)
          = n * 2 ^ shift := by
        have hdm : n % 128 + n / 128 * 128 = n := by omega
        calc n % 128 * 2 ^ shift + n / 128 * 2 ^ (shift + 7)
            = (n % 128 + n / 128 * 128) * 2 ^ shift := by rw [pow_add]; ring
          _ = n * 2 ^ shift := by rw [hdm]
      congr 2
      omega

theorem readUleb128Loop_cont {b : Nat} (rest : List Nat) (result shift : Nat)
    (hb : b &&& 0x80 ≠ 0) (hs : ¬ shift > 28) :
    readUleb128Loop (b :: rest) result shift
      = readUleb128Loop rest ((result ||| ((b &&& 0x7f) <<< shift)) % 2 ^ 32) (shift + 7) := by
  conv_lhs => rw [readUleb128Loop]
  rw [if_neg hs]
  simp [hb]

theorem readUleb128_encode (n : Nat) (rest : List Nat) (hn : n < 2 ^ 32) :
    readUleb128 (encodeUleb128 n ++ rest) = .ok (n, rest) := by
  have h5 : n < 128 ^ (4 + 1) := by
    calc n < 2 ^ 32 := hn
      _ ≤ 128 ^ (4 + 1) := by norm_num
  have := encodeUleb128Go_spec 4 n 0 0 rest h5 (by simpa using hn)
    (by norm_num) (by norm_num) (by norm_num)
  simpa [readUleb128, encodeUleb128] using this

/-- C6: for every `u32` value `n`, decoding the 1-to-5-byte ULEB128
encoding of `n` with `read_uleb128` returns `n` (and consumes exactly the
encoding), and for every byte sequence whose first five bytes all have
the continuation bit set, `read_uleb128` returns `InvalidULeb128` without
consuming a sixth byte (the result does not depend on the tail). -/
theorem C6_uleb128_roundtrip :
    (∀ (n : Nat) (rest : List Nat), n < 2 ^ 32 →
        readUleb128 (encodeUleb128 n ++ rest) = .ok (n, rest)) ∧
    (∀ (b0 b1 b2 b3 b4 : Nat) (tail : List Nat),
        b0 &&& 0x80 ≠ 0 → b1 &&& 0x80 ≠ 0 → b2 &&& 0x80 ≠ 0 →
        b3 &&& 0x80 ≠ 0 → b4 &&& 0x80 ≠ 0 →
        readUleb128 (b0 :: b1 :: b2 :: b3 :: b4 :: tail) = .err .invalidULeb128) := by
  constructor
  · intro n rest hn
    exact readUleb128_encode n rest hn
  · intro b0 b1 b2 b3 b4 tail h0 h1 h2 h3 h4
    unfold readUleb128
    rw [readUleb128Loop_cont _ _ _ h0 (by norm_num),
      readUleb128Loop_cont _ _ _ h1 (by norm_num),
      readUleb128Loop_cont _ _ _ h2 (by norm_num),
      readUleb128Loop_cont _ _ _ h3 (by norm_num),
      readUleb128Loop_cont _ _ _ h4 (by norm_num)]
    rw [readUleb128Loop.eq_def]
    norm_num

theorem C6_uleb128_roundtrip_witness :
    readUleb128 (encodeUleb128 300 ++ [7]) = .ok (300, [7]) ∧
    readUleb128 [0x80, 0x81, 0x82, 0x83, 0x84, 9] = .err .invalidULeb128 :=
  ⟨C6_uleb128_roundtrip.1 300 [7] (by norm_num),
   C6_uleb128_roundtrip.2 0x80 0x81 0x82 0x83 0x84 [9]
     (by decide) (by decide) (by decide) (by decide) (by decide)⟩

/-! ## The 33-bit decoder never reports `InvalidULeb128` (claim C10) -/

theorem readUleb12833Loop_shape (data : List Nat) :
    ∀ (v sh : Nat),
      (∃ out, readUleb12833Loop data v sh = .ok out) ∨
        readUleb12833Loop data v sh = .err .ioError := by
  induction data with
  | nil => intro v sh; right; rfl
  | cons b rest ih =>
    intro v sh
    by_cases hb : b < 0x80
    · left
      exact ⟨_, by rw [readUleb12833Loop, if_pos hb]⟩
    · rw [readUleb12833Loop, if_neg hb]
      exact ih _ _

theorem readUleb12833Loop_allCont (data : List Nat) :
    ∀ (v sh : Nat), (∀ x ∈ data, 0x80 ≤ x) →
      readUleb12833Loop data v sh = .err .ioError := by
  induction data with
  | nil => intro v sh _; rfl
  | cons b rest ih =>
    intro v sh hall
    have hb : ¬ b < 0x80 := by
      have := hall b (by simp)
      omega
    rw [readUleb12833Loop, if_neg hb]
    exact ih _ _ (fun x hx => hall x (by simp [hx]))

/-- C10: `read_uleb128_33` imposes no length limit and never returns
`InvalidULeb128`: on every finite input it either succeeds or fails with
an IO error from a short read, and on an input whose first byte signals
continuation and whose bytes all have the continuation bit set it
consumes the whole stream and fails with the IO (short-read) error. -/
theorem C10_uleb128_33_total :
    (∀ data : List Nat,
      (∃ out, readUleb12833 data = .ok out) ∨ readUleb12833 data = .err .ioError) ∧
    (∀ (b : Nat) (data : List Nat), 0x80 ≤ b → (∀ x ∈ data, 0x80 ≤ x) →
      readUleb12833 (b :: data) = .err .ioError) := by
  have hshape : ∀ data : List Nat,
      (∃ out, readUleb12833 data = .ok out) ∨ readUleb12833 data = .err .ioError := by
    intro data
    match data with
    | [] => right; rfl
    | b :: rest =>
      rw [readUleb12833]
      by_cases hv : b >>> 1 ≥ 0x40
      · rw [if_pos hv]
        rcases readUleb12833Loop_shape rest (b >>> 1 &&& 0x3f) 6 with ⟨⟨v', rest'⟩, hok⟩ | hio
        · left; exact ⟨_, by rw [hok]⟩
        · right; rw [hio]
      · rw [if_neg hv]
        left; exact ⟨_, rfl⟩
  refine ⟨hshape, ?_⟩
  · intro b data hb hall
    rw [readUleb12833]
    have hv : b >>> 1 ≥ 0x40 := by
      rw [Nat.shiftRight_eq_div_pow]
      omega
    rw [if_pos hv, readUleb12833Loop_allCont data _ _ hall]

theorem C10_uleb128_33_total_witness :
    readUleb12833 [0x81, 0x85] = .err .ioError :=
  C10_uleb128_33_total.2 0x81 [0x85] (by norm_num)
    (by intro x hx; simp at hx; omega)

/-! ## Jump operand bias (claim C8) -/

/-- C8: for every 16-bit encoded jump field `v`, the decoded `Jump`
operand is `v − 0x8000` as an exact integer: `v − 0x8000` when
`v ≥ 0x8000` and `−(0x8000 − v)` otherwise. -/
theorem C8_jump_bias (v : Nat) (h : v < 2 ^ 16) :
    jumpFromU16 v = (v : Int) - 0x8000 ∧
    (0x8000 ≤ v → jumpFromU16 v = ((v - 0x8000 : Nat) : Int)) ∧
    (v < 0x8000 → jumpFromU16 v = -(((0x8000 - v : Nat) : Int))) := by
  have hmain : jumpFromU16 v = (v : Int) - 0x8000 := by
    unfold jumpFromU16 toI16 negI16
    split_ifs <;> omega
  refine ⟨hmain, fun hge => ?_, fun hlt => ?_⟩
  · rw [hmain]; omega
  · rw [hmain]; omega

theorem C8_jump_bias_witness :
    jumpFromU16 0x8005 = ((0x8005 - 0x8000 : Nat) : Int) ∧
    jumpFromU16 0x7fff = -(((0x8000 - 0x7fff : Nat) : Int)) ∧
    jumpFromU16 0 = (0 : Int) - 0x8000 :=
  ⟨(C8_jump_bias 0x8005 (by norm_num)).2.1 (by norm_num),
   (C8_jump_bias 0x7fff (by norm_num)).2.2 (by norm_num),
   (C8_jump_bias 0 (by norm_num)).1⟩

/-! ## Header flags: the FFI rejection is dead code (claim C3) -/

/-- C3: the spec says a flags ULEB128 with the FFI bit (`0x04`) set is
rejected with `InvalidHeaderBytes`, but the source tests
`flags & BC_F_FFI == 1`, which is never true (`flags & 4` is `0` or `4`),
so `read_header` accepts an FFI-flagged dump: on the header bytes
`1B 4C 4A 02` with flags `0x04` it returns `Ok` with `flags = 4`.  The
other half of the check does work: a flag bit outside the known mask
`0x0F` (here `0x10`) is rejected. -/
theorem C3_header_ffi_accepted :
    readHeader [0x1b, 0x4c, 0x4a, 0x02, 0x04]
      = .ok (([0x1b, 0x4c, 0x4a], 2, 4), []) ∧
    readHeader [0x1b, 0x4c, 0x4a, 0x02, 0x10]
      = .err (.invalidHeaderBytes "Invalid header flags.") ∧
    ∀ flags : Nat, flags &&& BC_F_FFI = (flags.testBit 2).toNat * 4 := by
  refine ⟨by decide, by decide, ?_⟩
  intro flags
  show flags &&& 4 = (flags.testBit 2).toNat * 4
  have h2 := Nat.and_two_pow flags 2
  norm_num at h2
  exact h2

/-! ## The lifter's CALL arm (claim C2) -/

theorem varForSlot_fst (L : Lifter) (i : Nat) (t u : Bool) :
    (varForSlot L i t u).1 = i := by
  unfold varForSlot
  cases L.slots.lookup i <;> rfl

theorem varsForSlots_fst (idxs : List Nat) :
    ∀ L : Lifter, (varsForSlots L idxs).1 = idxs := by
  induction idxs with
  | nil => intro L; rfl
  | cons i tl ih =>
    intro L
    simp only [varsForSlots]
    rw [varForSlot_fst, ih]

theorem varForSlot_multres (L : Lifter) (i : Nat) (t u : Bool) :
    (varForSlot L i t u).2.multres = L.multres := by
  unfold varForSlot
  cases L.slots.lookup i <;> rfl

theorem varsForSlots_multres (idxs : List Nat) :
    ∀ L : Lifter, (varsForSlots L idxs).2.multres = L.multres := by
  induction idxs with
  | nil => intro L; rfl
  | cons i tl ih =>
    intro L
    simp only [varsForSlots]
    rw [ih, varForSlot_multres]

/-- C2 (counterexample): for `CALL(a=0, b=0, c=3)` the emitted `Call` has
returns `[Var(1), Var(2)]`, not the empty list the claim states for
`b == 0` (while `multres` is indeed set to `c − 1 = 2`). -/
theorem C2_call_returns_counterexample :
    (liftCALL Lifter.new 0 0 3).2 = .Call [1, 2] [.Var 0, .Var 1, .Var 2] ∧
    (liftCALL Lifter.new 0 0 3).1.multres = 2 := by
  exact ⟨by decide, by decide⟩

/-- C2 (amended): for every `CALL(a, b, c)` the emitted `Call`'s argument
list is `Var(a)` followed by `Var(a+1)..Var(a+c−1)` (no extra arguments
when `c ≤ 1`); when `b ≠ 0` the returns are the slots `a..a+b−2` and
`multres` is unchanged; when `b == 0` and `c > 1` the returns are the
slots `a+1..a+c−1` (not empty) and `multres` is set to `c − 1`; when
`b == 0` and `c ≤ 1` the returns are empty and `multres` is unchanged.
In particular `CALL a=2, b=3, c=2` emits
`Call([Var(2), Var(3)], [Var(2), Var(3)])`. -/
theorem C2_call_lift :
    (∀ (L : Lifter) (a b c : Nat),
      (liftCALL L a b c).2
        = .Call
            ((if b ≠ 0 then List.range' a (b - 1) else [])
              ++ (if b = 0 ∧ c > 1 then List.range' (a + 1) (c - 1) else []))
            (Expr.Var a ::
              (if c > 1 then (List.range' (a + 1) (c - 1)).map Expr.Var else [])) ∧
      (liftCALL L a b c).1.multres
        = (if b = 0 ∧ c > 1 then c - 1 else L.multres)) ∧
    (liftCALL Lifter.new 2 3 2).2 = .Call [2, 3] [.Var 2, .Var 3] := by
  constructor
  · intro L a b c
    by_cases hb0 : b = 0
    · subst hb0
      by_cases hc1 : c > 1
      · simp [liftCALL, hc1, varsForSlots_fst, varsForSlots_multres]
      · simp [liftCALL, hc1]
    · by_cases hc1 : c > 1
      · simp [liftCALL, hb0, hc1, varsForSlots_fst, varsForSlots_multres]
      · simp [liftCALL, hb0, hc1, varsForSlots_fst, varsForSlots_multres]
  · decide

/-! ## Zero prototype length does not stop the dump loop (claim C4) -/

/-- C4 (code_bug evidence): the prototype-reading loop of
`read_bytecode_dump` executes `continue` (not `break`) on a zero
prototype-length ULEB128, so a prototype record that follows a `0` length
is still read and loaded.  Concretely: after a valid stripped header, the
stream `00` (zero terminator) followed by an 11-byte record holding a
minimal `RET0` prototype yields a dump whose prototype list has the
prototype that the claim says must not be loaded. -/
theorem C4_zero_length_continues :
    readBytecodeDump
        [0x1b, 0x4c, 0x4a, 0x02, 0x02,
         0x00,
         0x0b, 0x00, 0x00, 0x02, 0x00, 0x00, 0x00, 0x01, 0x4b, 0x00, 0x00, 0x00]
      = .ok
          { magic := [0x1b, 0x4c, 0x4a], version := 2, flags := 2, name := "",
            prototypes :=
              [{ flags := 0, numParams := 0, frameSize := 2, sizeUpValues := 0,
                 sizeGlobalConsts := 0, sizeNumConsts := 0, sizeBc := 1,
                 flowGraph := ⟨[(0, ⟨[0x4b], none, none⟩)], []⟩,
                 bcRaw := [0x4b], upValues := [], globalConsts := [],
                 numConsts := [] }] } ∧
    ∀ dump : ByteCodeDump,
      readBytecodeDump
          [0x1b, 0x4c, 0x4a, 0x02, 0x02,
           0x00,
           0x0b, 0x00, 0x00, 0x02, 0x00, 0x00, 0x00, 0x01, 0x4b, 0x00, 0x00, 0x00]
        = .ok dump → dump.prototypes.length = 1 := by
  refine ⟨by decide, ?_⟩
  intro dump h
  rw [show readBytecodeDump
        [0x1b, 0x4c, 0x4a, 0x02, 0x02,
         0x00,
         0x0b, 0x00, 0x00, 0x02, 0x00, 0x00, 0x00, 0x01, 0x4b, 0x00, 0x00, 0x00]
      = .ok
          { magic := [0x1b, 0x4c, 0x4a], version := 2, flags := 2, name := "",
            prototypes :=
              [{ flags := 0, numParams := 0, frameSize := 2, sizeUpValues := 0,
                 sizeGlobalConsts := 0, sizeNumConsts := 0, sizeBc := 1,
                 flowGraph := ⟨[(0, ⟨[0x4b], none, none⟩)], []⟩,
                 bcRaw := [0x4b], upValues := [], globalConsts := [],
                 numConsts := [] }] } from by decide] at h
  cases RRes.ok.inj h
  rfl

/-! ## Out-of-range jump targets panic; there is no `InvalidJumpTarget`
error (claim C5) -/

/-- C5 (counterexample): on the one-instruction program consisting of
`JMP` with target offset `6 > bc_len = 1`, `resolve_basic_blocks` ends in
a panic (`RRes.fail`, the out-of-bounds slice `bc_raw[6..]`), not in any
`DecompileError` value; `DecompileError` (`DErr` here) has no
`InvalidJumpTarget` variant at all. -/
theorem C5_no_invalid_jump_target_counterexample :
    resolveBasicBlocks [0x80050058] = .fail := by decide

/-- `recurse_block` called on a target beyond the end of a one-node graph
panics on the slice `bc_raw[idx..]`. -/
theorem recurseBlock_oob (fuel : Nat) (bc : List Nat) (w0 : GNode Block) (D : Nat)
    (hD : D > bc.length) (hD0 : ¬ D = 0) (hlen : ¬ w0.weight.length > D) :
    recurseBlock (fuel + 1) bc ⟨[(0, w0)], []⟩ D = .fail := by
  rw [recurseBlock]
  have hprev : tryPrevKey [(0, w0)] D = some 0 := by
    simp [tryPrevKey]
  rw [hprev]
  simp only [hD0, if_false]
  have hwt : Graph.nodeWeight (⟨[(0, w0)], []⟩ : RGraph) 0 = some w0.weight := by
    simp [Graph.nodeWeight, lookupNode]
  rw [hwt]
  simp only [Nat.sub_zero, hlen, if_false]
  have hrem : bc.length - D = 0 := by omega
  rw [hrem, scanBlock]
  have hslice : sliceFrom bc D = .fail := by
    rw [sliceFrom, if_neg (by omega : ¬ D ≤ bc.length)]
  rw [hslice]

theorem RRes_bind_fail {α β : Type} (f : α → RRes β) :
    (RRes.fail : RRes α) >>= f = (RRes.fail : RRes β) := rfl

/-- A `JMP` scan step whose recursive call panics propagates the panic. -/
theorem scanBlock_jmp_fail (recurse : RGraph → Nat → RRes RGraph) (bc : List Nat)
    (start : Nat) (nb : Option Nat) (g : RGraph) (prevCond : Option Nat)
    (idx rem w a : Nat) (jv : Int)
    (hnb : ¬ some idx = nb)
    (hget : bc.get? idx = some w)
    (hd : disasm w = .ok (.JMP a jv))
    (hrec : recurse (g.insertNode start (sliceIncl bc start idx)) (destAddr idx jv)
      = .fail) :
    scanBlock recurse bc start nb g prevCond idx (rem + 1) = .fail := by
  rw [scanBlock, if_neg hnb]
  simp only [hget, hd]
  rw [hrec]
  rfl

/-- C5 (amended): for every instruction array whose first instruction is
a `JMP` (opcode `0x58`) whose computed target offset exceeds `bc_len`,
`resolve_basic_blocks` panics (out-of-bounds slice) instead of returning
an error value: the result is `RRes.fail`.  (`DErr`, the embedding of
`DecompileError`, has no `InvalidJumpTarget` variant; the source never
constructs such an error.) -/
theorem C5_out_of_range_jump_panics (bc : List Nat) (w : Nat)
    (hw : bc.get? 0 = some w) (hop : getOp w = 0x58)
    (hdest : destAddr 0 (jumpFromU16 (getD w)) > bc.length) :
    resolveBasicBlocks bc = .fail := by
  cases bc with
  | nil => simp at hw
  | cons w0 rest =>
    have hww : w = w0 := by
      have := hw
      simp only [List.get?_cons_zero] at this
      exact (Option.some.inj this).symm
    subst hww
    have hd : disasm w = .ok (.JMP (getA w) (jumpFromU16 (getD w))) := by
      unfold disasm
      rw [hop]
    show recurseBlock (rest.length + 2 + 1) (w :: rest) Graph.new 0 = .fail
    rw [recurseBlock]
    have hprev0 : tryPrevKey (Graph.new : RGraph).nodes 0 = none := rfl
    rw [hprev0]
    show scanBlock (recurseBlock (rest.length + 2) (w :: rest)) (w :: rest) 0
      (tryNextKey (Graph.new : RGraph).nodes 0) Graph.new none 0 (rest.length + 1) = .fail
    apply scanBlock_jmp_fail _ _ _ _ _ _ _ _ w (getA w) (jumpFromU16 (getD w))
    · decide
    · rfl
    · exact hd
    · have hg1 : (Graph.new : RGraph).insertNode 0 (sliceIncl (w :: rest) 0 0)
          = ⟨[(0, ⟨[w], none, none⟩)], []⟩ := by
        simp [Graph.insertNode, Graph.new, insertSorted, sliceIncl]
      rw [hg1]
      rw [show rest.length + 2 = rest.length + 1 + 1 from rfl]
      apply recurseBlock_oob
      · simpa using hdest
      · simp only [List.length_cons] at hdest
        omega
      · show ¬ ([w] : List Nat).length > destAddr 0 (jumpFromU16 (getD w))
        simp only [List.length_cons, List.length_nil] at hdest ⊢
        omega

theorem C5_out_of_range_jump_panics_witness :
    resolveBasicBlocks [0x80050058] = .fail :=
  C5_out_of_range_jump_panics [0x80050058] 0x80050058 rfl (by decide) (by decide)

/-! ## String constants and UTF-8 lossy storage (claim C9) -/

/-- On byte sequences accepted by Rust's UTF-8 validation, the lossy
conversion is the identity. -/
theorem fromUtf8Lossy_valid_aux :
    ∀ (fuel : Nat) (l : List Nat), l.length ≤ fuel →
      utf8ValidGo fuel l = true → fromUtf8LossyGo fuel l = l := by
  intro fuel
  induction fuel with
  | zero =>
    intro l hl _
    match l with
    | [] => rfl
    | b :: rest => simp at hl
  | succ n ih =>
    intro l hl hv
    match l with
    | [] => rfl
    | b :: rest =>
      rw [utf8ValidGo] at hv
      rw [fromUtf8LossyGo]
      by_cases h1 : b < 0x80
      · rw [if_pos h1] at hv ⊢
        rw [ih rest (by simp at hl; omega) hv]
      · rw [if_neg h1] at hv ⊢
        by_cases h2 : (0xC2 ≤ b && b ≤ 0xDF) = true
        · rw [if_pos h2] at hv ⊢
          cases rest with
          | nil => simp [isCont] at hv
          | cons c1 rest2 =>
            simp only [List.getD_cons_zero, List.drop_succ_cons, List.drop_zero,
              Bool.and_eq_true] at hv ⊢
            rw [if_pos hv.1]
            rw [ih rest2 (by simp at hl; omega) hv.2]
        · rw [if_neg h2] at hv ⊢
          by_cases h3 : (0xE0 ≤ b && b ≤ 0xEF) = true
          · rw [if_pos h3] at hv ⊢
            cases rest with
            | nil => simp [valid3] at hv
            | cons c1 rest2 =>
              cases rest2 with
              | nil => simp [isCont] at hv
              | cons c2 rest3 =>
                simp only [List.getD_cons_zero, List.getD_cons_succ,
                  List.drop_succ_cons, List.drop_zero, Bool.and_eq_true] at hv ⊢
                rw [if_pos hv.1.1, if_pos hv.1.2]
                rw [ih rest3 (by simp at hl; omega) hv.2]
          · rw [if_neg h3] at hv ⊢
            by_cases h4 : (0xF0 ≤ b && b ≤ 0xF4) = true
            · rw [if_pos h4] at hv ⊢
              cases rest with
              | nil => simp [valid4] at hv
              | cons c1 rest2 =>
                cases rest2 with
                | nil => simp [isCont] at hv
                | cons c2 rest3 =>
                  cases rest3 with
                  | nil => simp [isCont] at hv
                  | cons c3 rest4 =>
                    simp only [List.getD_cons_zero, List.getD_cons_succ,
                      List.drop_succ_cons, List.drop_zero, Bool.and_eq_true] at hv ⊢
                    rw [if_pos hv.1.1.1, if_pos hv.1.1.2, if_pos hv.1.2]
                    rw [ih rest4 (by simp at hl; omega) hv.2]
            · rw [if_neg h4] at hv
              simp at hv

theorem fromUtf8Lossy_valid (l : List Nat) (hv : utf8Valid l = true) :
    fromUtf8Lossy l = l :=
  fromUtf8Lossy_valid_aux l.length l (le_refl _) hv

/-- C9 (counterexample): a declared-length-1 string constant whose single
byte is `0xFF` (not valid UTF-8) is stored as the replacement-character
bytes `EF BF BD`, not as the raw input byte — both in the global-constant
pool and in a constant-table entry.  (`from_utf8_lossy` is not
lossless.) -/
theorem C9_string_lossy_counterexample :
    readPrototypeGlobalConstants 1 [0x06, 0xFF]
      = .ok ([.Str [0xEF, 0xBF, 0xBD]], []) ∧
    readConstTableVal [0x06, 0xFF]
      = .ok (.String [0xEF, 0xBF, 0xBD], []) := by
  exact ⟨by decide, by decide⟩

/-- C9 (amended): string constants are stored through
`String::from_utf8_lossy`; for every byte sequence of the declared length
`tag − 5` that is valid UTF-8, the stored string's bytes equal the input
bytes exactly (and the stream is left at the following byte), both for
global-constant strings and for constant-table strings. -/
theorem C9_strings_valid_lossless (tag : Nat) (bytes rest : List Nat)
    (htag : 5 ≤ tag) (htag32 : tag < 2 ^ 32) (hlen : bytes.length = tag - 5)
    (hvalid : utf8Valid bytes = true) :
    readPrototypeGlobalConstants 1 (encodeUleb128 tag ++ bytes ++ rest)
      = .ok ([.Str bytes], rest) ∧
    readConstTableVal (encodeUleb128 tag ++ bytes ++ rest)
      = .ok (.String bytes, rest) := by
  have htagread : readUleb128 (encodeUleb128 tag ++ (bytes ++ rest))
      = .ok (tag, bytes ++ rest) := readUleb128_encode tag (bytes ++ rest) htag32
  have hexact : readExactN (tag - 5) (bytes ++ rest) = .ok (bytes, rest) := by
    rw [readExactN, if_pos (by rw [List.length_append]; omega)]
    rw [List.take_left' hlen, List.drop_left' hlen]
  have hlossy : fromUtf8Lossy bytes = bytes := fromUtf8Lossy_valid bytes hvalid
  constructor
  · rw [show (1 : Nat) = 0 + 1 from rfl, readPrototypeGlobalConstants]
    rw [List.append_assoc]
    simp only [htagread, RRes.bind, Bind.bind]
    rw [if_neg (by simp [GC_TYPE_PROTO_CHILD]; omega),
      if_neg (by simp [GC_TYPE_TABLE]; omega),
      if_neg (by simp [GC_TYPE_I64, GC_TYPE_U64]; omega),
      if_neg (by simp [GC_TYPE_COMPLEX]; omega)]
    simp only [GC_TYPE_STR, hexact, RRes.bind, hlossy]
    rfl
  · rw [readConstTableVal]
    rw [List.append_assoc]
    simp only [htagread, RRes.bind, Bind.bind]
    rw [if_neg (by simp [TABLE_ENTRY_TYPE_NIL]; omega),
      if_neg (by simp [TABLE_ENTRY_TYPE_FALSE]; omega),
      if_neg (by simp [TABLE_ENTRY_TYPE_TRUE]; omega),
      if_neg (by simp [TABLE_ENTRY_TYPE_INT]; omega),
      if_neg (by simp [TABLE_ENTRY_TYPE_NUM]; omega)]
    simp only [TABLE_ENTRY_TYPE_STR, hexact, RRes.bind, hlossy]

theorem C9_strings_valid_lossless_witness :
    readPrototypeGlobalConstants 1 (encodeUleb128 7 ++ [0x61, 0x62] ++ [9])
      = .ok ([.Str [0x61, 0x62]], [9]) ∧
    readConstTableVal (encodeUleb128 7 ++ [0x61, 0x62] ++ [9])
      = .ok (.String [0x61, 0x62], [9]) :=
  C9_strings_valid_lossless 7 [0x61, 0x62] [9]
    (by norm_num) (by norm_num) (by decide) (by decide)

/-! ## `split_node` frame conditions (claim C7) -/

theorem get?_set {α : Type} (l : List α) (i j : Nat) (a : α) :
    (l.set i a).get? j = if i = j then (l.get? j).map (fun _ => a) else l.get? j := by
  rw [List.get?_eq_getElem?, List.get?_eq_getElem?, List.getElem?_set]
  split
  · subst i
    rcases Nat.lt_or_ge j l.length with h | h
    · simp [List.getElem?_eq_getElem h, h]
    · simp [List.getElem?_eq_none_iff.mpr h, Nat.not_lt.mpr h]
  · rfl

/-- `chainIdx` only looks at `nextOut` fields, so it is invariant under
pointwise edge replacements that keep `nextOut`. -/
theorem chainIdx_congr {E : Type} (edges edges' : List (GEdge E))
    (h : ∀ j, (edges'.get? j).map (·.nextOut) = (edges.get? j).map (·.nextOut)) :
    ∀ (next : Option Nat) (fuel : Nat),
      Graph.chainIdx edges' next fuel = Graph.chainIdx edges next fuel := by
  intro next fuel
  induction fuel generalizing next with
  | zero => cases next <;> rfl
  | succ fuel ih =>
    cases next with
    | none => rfl
    | some i =>
      rw [Graph.chainIdx, Graph.chainIdx]
      have hi := h i
      cases he : edges.get? i with
      | none =>
        rw [he] at hi
        cases he' : edges'.get? i with
        | none => rfl
        | some e' => rw [he'] at hi; simp at hi
      | some e =>
        rw [he] at hi
        cases he' : edges'.get? i with
        | none => rw [he'] at hi; simp at hi
        | some e' =>
          rw [he'] at hi
          simp at hi
          simp only [hi, ih]

theorem rewriteChain_spec {E : Type} (newIndex : Nat) :
    ∀ (fuel : Nat) (edges : List (GEdge E)) (next : Option Nat) (L : List Nat),
      Graph.chainIdx edges next fuel = some L →
      ∃ edges', Graph.rewriteChain newIndex edges next fuel = .ok edges' ∧
        ∀ j, edges'.get? j
          = (edges.get? j).map
              (fun e => if j ∈ L then { e with src := newIndex } else e) := by
  intro fuel
  induction fuel with
  | zero =>
    intro edges next L hc
    cases next with
    | none =>
      have hL : L = [] := (Option.some.inj hc).symm
      subst hL
      refine ⟨edges, rfl, fun j => ?_⟩
      cases edges.get? j <;> simp
    | some i => exact absurd hc (by rw [Graph.chainIdx]; simp)
  | succ fuel ih =>
    intro edges next L hc
    cases next with
    | none =>
      have hL : L = [] := (Option.some.inj hc).symm
      subst hL
      refine ⟨edges, rfl, fun j => ?_⟩
      cases edges.get? j <;> simp
    | some i =>
      rw [Graph.chainIdx] at hc
      cases he : edges.get? i with
      | none =>
        simp only [he] at hc
        exact absurd hc (by simp)
      | some e =>
        simp only [he] at hc
        cases hmo : Graph.chainIdx edges e.nextOut fuel with
        | none => rw [hmo] at hc; simp at hc
        | some L' =>
          rw [hmo] at hc
          simp at hc
          subst hc
          rw [Graph.rewriteChain, he]
          have hcong : ∀ j,
              ((edges.set i { e with src := newIndex }).get? j).map (·.nextOut)
                = (edges.get? j).map (·.nextOut) := by
            intro j
            rw [get?_set]
            split
            · next hij =>
              subst hij
              rw [he]
              rfl
            · rfl
          have hc1 : Graph.chainIdx (edges.set i { e with src := newIndex })
              e.nextOut fuel = some L' := by
            rw [chainIdx_congr edges _ hcong, hmo]
          obtain ⟨edges'', hrw, hpt⟩ := ih _ _ _ hc1
          refine ⟨edges'', hrw, fun j => ?_⟩
          rw [hpt j, get?_set]
          by_cases hij : i = j
          · subst hij
            rw [he]
            simp
          · rw [if_neg hij]
            cases edges.get? j with
            | none => rfl
            | some e0 =>
              simp only [Option.map]
              congr 1
              have : (j ∈ i :: L') ↔ (j ∈ L') := by
                simp [List.mem_cons, Ne.symm hij]
              by_cases hmem : j ∈ L'
              · rw [if_pos hmem, if_pos (this.mpr hmem)]
              · rw [if_neg hmem, if_neg (fun hx => hmem (this.mp hx))]

theorem lookupNode_updateNode {N : Type} (f : GNode N → GNode N)
    (l : List (Nat × GNode N)) (k k' : Nat) :
    lookupNode (updateNode f l k) k'
      = if k' = k then (lookupNode l k).map f else lookupNode l k' := by
  induction l with
  | nil =>
    simp only [updateNode, lookupNode]
    split <;> rfl
  | cons hd t ih =>
    obtain ⟨k1, nd⟩ := hd
    simp only [updateNode, lookupNode]
    split_ifs with h1 h2 h3 <;> simp_all [lookupNode]

theorem lookupNode_insertSorted {N : Type} (k : Nat) (nd : GNode N)
    (l : List (Nat × GNode N)) (k' : Nat) :
    lookupNode (insertSorted k nd l) k'
      = if k' = k then some nd else lookupNode l k' := by
  induction l with
  | nil =>
    simp only [insertSorted, lookupNode]
  | cons hd t ih =>
    obtain ⟨k1, nd1⟩ := hd
    rw [insertSorted]
    split_ifs with h1 h2 <;> simp_all [lookupNode]

/-- C7: under the split precondition (`newKey > oldKey`, a node at
`oldKey`, none at `newKey`) and the intrusive-list well-formedness of the
old node's outgoing chain (`L` enumerates it, and it holds exactly the
edges sourced at `oldKey`), `split_node` leaves every edge sourced at
another node and every incoming link unchanged, re-sources exactly the
edges previously sourced at `oldKey` to `newKey` (changing no weight,
target, or link fields), hands the old outgoing list to the new node
(whose chain is unchanged), and keeps the old node's incoming list. -/
theorem C7_split_node_frame {N E : Type} (g : Graph N E) (oldKey newKey : Nat)
    (splitter : N → N × N) (nd : GNode N) (L : List Nat)
    (hold : lookupNode g.nodes oldKey = some nd)
    (hnew : lookupNode g.nodes newKey = none)
    (hgt : oldKey < newKey)
    (hchain : Graph.chainIdx g.edges nd.nextOut (g.edges.length + 1) = some L)
    (hsrc : ∀ (j : Nat) (e : GEdge E), g.edges.get? j = some e → (e.src = oldKey ↔ j ∈ L)) :
    ∃ g' : Graph N E,
      g.splitNode oldKey newKey splitter = .ok g' ∧
      (∀ j, g'.edges.get? j
        = (g.edges.get? j).map (fun e =>
            if e.src = oldKey then { e with src := newKey } else e)) ∧
      lookupNode g'.nodes oldKey
        = some ⟨(splitter nd.weight).1, none, nd.nextIn⟩ ∧
      lookupNode g'.nodes newKey
        = some ⟨(splitter nd.weight).2, nd.nextOut, none⟩ ∧
      (∀ k, k ≠ oldKey → k ≠ newKey →
        lookupNode g'.nodes k = lookupNode g.nodes k) ∧
      Graph.chainIdx g'.edges nd.nextOut (g.edges.length + 1) = some L := by
  obtain ⟨edges', hrw, hpt⟩ :=
    rewriteChain_spec newKey (g.edges.length + 1) g.edges nd.nextOut L hchain
  have hne : ¬ newKey = oldKey := by omega
  have hpt' : ∀ j, edges'.get? j
      = (g.edges.get? j).map (fun e =>
          if e.src = oldKey then { e with src := newKey } else e) := by
    intro j
    rw [hpt j]
    cases hej : g.edges.get? j with
    | none => rfl
    | some e =>
      simp only [Option.map]
      congr 1
      have hiff := hsrc j e hej
      by_cases hmem : j ∈ L
      · rw [if_pos hmem, if_pos (hiff.mpr hmem)]
      · rw [if_neg hmem, if_neg (fun hx => hmem (hiff.mp hx))]
  refine ⟨⟨updateNode (fun nd0 => { nd0 with nextOut := nd.nextOut })
      (insertSorted newKey ⟨(splitter nd.weight).2, none, none⟩
        (updateNode (fun nd0 => { nd0 with weight := (splitter nd.weight).1, nextOut := none })
          g.nodes oldKey))
      newKey, edges'⟩, ?_, hpt', ?_, ?_, ?_, ?_⟩
  · simp only [Graph.splitNode, hold]
    have hnew1 : lookupNode
        (updateNode (fun nd0 => { nd0 with weight := (splitter nd.weight).1, nextOut := none })
          g.nodes oldKey) newKey = none := by
      rw [lookupNode_updateNode, if_neg hne, hnew]
    rw [hnew1, hrw]
  · rw [lookupNode_updateNode, if_neg (by omega : ¬ oldKey = newKey),
      lookupNode_insertSorted, if_neg (by omega : ¬ oldKey = newKey),
      lookupNode_updateNode, if_pos rfl, hold]
    rfl
  · rw [lookupNode_updateNode, if_pos rfl, lookupNode_insertSorted, if_pos rfl]
    rfl
  · intro k hk1 hk2
    rw [lookupNode_updateNode, if_neg hk2, lookupNode_insertSorted, if_neg hk2,
      lookupNode_updateNode, if_neg hk1]
  · rw [chainIdx_congr g.edges _ _]
    · exact hchain
    · intro j
      rw [hpt' j]
      cases g.edges.get? j with
      | none => rfl
      | some e =>
        simp only [Option.map]
        by_cases hsj : e.src = oldKey
        · rw [if_pos hsj]
        · rw [if_neg hsj]

theorem C7_split_node_frame_witness :
    ∃ g' : Graph Block BranchKind,
      Graph.splitNode ⟨[(0, ⟨[10, 11, 12], some 0, none⟩), (5, ⟨[13], none, some 0⟩)],
          [⟨.Unconditional, 0, 5, none, none⟩]⟩ 0 2
          (fun b => (b.take 2, b.drop 2)) = .ok g' ∧
      (∀ j, g'.edges.get? j
        = (([⟨.Unconditional, 0, 5, none, none⟩] : List (GEdge BranchKind)).get? j).map
            (fun e => if e.src = 0 then { e with src := 2 } else e)) ∧
      lookupNode g'.nodes 0 = some ⟨[10, 11], none, none⟩ ∧
      lookupNode g'.nodes 2 = some ⟨[12], some 0, none⟩ ∧
      (∀ k, k ≠ 0 → k ≠ 2 →
        lookupNode g'.nodes k
          = lookupNode [(0, (⟨[10, 11, 12], some 0, none⟩ : GNode Block)),
              (5, ⟨[13], none, some 0⟩)] k) ∧
      Graph.chainIdx g'.edges (some 0) 2 = some [0] :=
  C7_split_node_frame
    ⟨[(0, ⟨[10, 11, 12], some 0, none⟩), (5, ⟨[13], none, some 0⟩)],
      [⟨.Unconditional, 0, 5, none, none⟩]⟩
    0 2 (fun b => (b.take 2, b.drop 2)) ⟨[10, 11, 12], some 0, none⟩ [0]
    (by decide) (by decide) (by decide) (by decide)
    (by
      intro j e hj
      match j, hj with
      | 0, hj =>
        have : e = ⟨.Unconditional, 0, 5, none, none⟩ := by
          simpa using hj.symm
        subst this
        simp)

/-! ### Node-map ordering invariant of the resolver (towards C1) -/

theorem nodesChained_cons {k1 : Nat} {nd1 : GNode Block} {t : List (Nat × GNode Block)} :
    NodesChained ((k1, nd1) :: t) ↔
      (∀ b ∈ t, k1 < b.1 ∧ k1 + nd1.weight.length ≤ b.1) ∧ NodesChained t :=
  List.pairwise_cons

theorem nodesSorted_cons {N : Type} {k1 : Nat} {nd1 : GNode N}
    {t : List (Nat × GNode N)} :
    NodesSorted ((k1, nd1) :: t) ↔ (∀ b ∈ t, k1 < b.1) ∧ NodesSorted t :=
  List.pairwise_cons

theorem nodesChained_sorted {l : List (Nat × GNode Block)} (hc : NodesChained l) :
    NodesSorted l :=
  List.Pairwise.imp (fun h => h.1) hc

/-- In a chained node list, an earlier key's block ends at or before any
later key. -/
theorem chained_rel_of_mem {l : List (Nat × GNode Block)} (hc : NodesChained l)
    {a b : Nat × GNode Block} (ha : a ∈ l) (hb : b ∈ l) (hab : a.1 < b.1) :
    a.1 + a.2.weight.length ≤ b.1 := by
  induction l with
  | nil => cases ha
  | cons hd t ih =>
    obtain ⟨k1, nd1⟩ := hd
    have hhd := (nodesChained_cons.mp hc).1
    have hct := (nodesChained_cons.mp hc).2
    rcases List.mem_cons.mp ha with heada | ha'
    · rcases List.mem_cons.mp hb with headb | hb'
      · rw [heada, headb] at hab; omega
      · have h := hhd b hb'
        rw [heada]
        exact h.2
    · rcases List.mem_cons.mp hb with headb | hb'
      · have h := (hhd a ha').1
        rw [headb] at hab
        omega
      · exact ih hct ha' hb'

theorem mem_insertSorted {N : Type} {k : Nat} {nd : GNode N}
    {l : List (Nat × GNode N)} {b : Nat × GNode N}
    (hb : b ∈ insertSorted k nd l) : b = (k, nd) ∨ b ∈ l := by
  induction l with
  | nil => simpa [insertSorted] using hb
  | cons hd t ih =>
    obtain ⟨k1, nd1⟩ := hd
    rw [insertSorted] at hb
    split_ifs at hb with h1 h2
    · simp only [List.mem_cons] at hb ⊢
      tauto
    · simp only [List.mem_cons] at hb ⊢
      tauto
    · simp only [List.mem_cons] at hb ⊢
      rcases hb with rfl | hb'
      · tauto
      · rcases ih hb' with h | h
        · tauto
        · tauto

theorem mem_updateNode_key {N : Type} {f : GNode N → GNode N}
    {l : List (Nat × GNode N)} {k : Nat} {b : Nat × GNode N}
    (hb : b ∈ updateNode f l k) : ∃ b0 ∈ l, b0.1 = b.1 := by
  induction l with
  | nil => simp [updateNode] at hb
  | cons hd t ih =>
    obtain ⟨k1, nd1⟩ := hd
    rw [updateNode] at hb
    split_ifs at hb with h1
    · rcases List.mem_cons.mp hb with rfl | hb'
      · exact ⟨(k1, nd1), List.mem_cons_self _ _, rfl⟩
      · exact ⟨b, List.mem_cons_of_mem _ hb', rfl⟩
    · rcases List.mem_cons.mp hb with rfl | hb'
      · exact ⟨(k1, nd1), List.mem_cons_self _ _, rfl⟩
      · obtain ⟨b0, hb0, he⟩ := ih hb'
        exact ⟨b0, List.mem_cons_of_mem _ hb0, he⟩

theorem lookupNode_mem {N : Type} {l : List (Nat × GNode N)} {k : Nat} {nd : GNode N}
    (h : lookupNode l k = some nd) : (k, nd) ∈ l := by
  induction l with
  | nil => simp [lookupNode] at h
  | cons hd t ih =>
    obtain ⟨k1, nd1⟩ := hd
    rw [lookupNode] at h
    split_ifs at h with h1
    · injection h with h2
      subst h2
      subst h1
      exact List.mem_cons_self _ _
    · exact List.mem_cons_of_mem _ (ih h)

theorem mem_lookupNode_sorted {N : Type} {l : List (Nat × GNode N)}
    (hs : NodesSorted l) {k : Nat} {nd : GNode N}
    (h : (k, nd) ∈ l) : lookupNode l k = some nd := by
  induction l with
  | nil => cases h
  | cons hd t ih =>
    obtain ⟨k1, nd1⟩ := hd
    have hhd := (nodesSorted_cons.mp hs).1
    have hst := (nodesSorted_cons.mp hs).2
    rw [lookupNode]
    rcases List.mem_cons.mp h with heq | hmem
    · injection heq with e1 e2
      subst e1
      subst e2
      rw [if_pos rfl]
    · have hk : k1 < k := hhd (k, nd) hmem
      rw [if_neg (by omega)]
      exact ih hst hmem

/-- `BTreeMap::insert` preserves the chain invariant when the new block
fits strictly between the blocks below `k` and the keys at or above `k`. -/
theorem chained_insertSorted {k : Nat} {nd : GNode Block} {l : List (Nat × GNode Block)}
    (hc : NodesChained l)
    (h1 : ∀ b ∈ l, b.1 < k → b.1 + b.2.weight.length ≤ k)
    (h2 : ∀ b ∈ l, ¬ b.1 < k → k < b.1 ∧ k + nd.weight.length ≤ b.1) :
    NodesChained (insertSorted k nd l) := by
  induction l with
  | nil => exact List.Pairwise.cons (by simp) List.Pairwise.nil
  | cons hd t ih =>
    obtain ⟨k1, nd1⟩ := hd
    have hhd := (nodesChained_cons.mp hc).1
    have hct := (nodesChained_cons.mp hc).2
    rw [insertSorted]
    split_ifs with hlt heq
    · refine nodesChained_cons.mpr ⟨?_, hc⟩
      intro b hb
      rcases List.mem_cons.mp hb with rfl | hb'
      · exact h2 (k1, nd1) (List.mem_cons_self _ _) (by omega)
      · have hk := (hhd b hb').1
        exact h2 b (List.mem_cons_of_mem _ hb') (by omega)
    · refine nodesChained_cons.mpr ⟨?_, hct⟩
      intro b hb
      have hk := (hhd b hb).1
      exact h2 b (List.mem_cons_of_mem _ hb) (by omega)
    · refine nodesChained_cons.mpr ⟨?_, ?_⟩
      · intro b hb
        rcases mem_insertSorted hb with rfl | hb'
        · refine ⟨by omega, ?_⟩
          exact h1 (k1, nd1) (List.mem_cons_self _ _) (by omega)
        · exact hhd b hb'
      · refine ih hct ?_ ?_
        · intro b hb hb2
          exact h1 b (List.mem_cons_of_mem _ hb) hb2
        · intro b hb hb2
          exact h2 b (List.mem_cons_of_mem _ hb) hb2

/-- `get_mut`-style node mutation preserves the chain invariant whenever
the mutation does not lengthen the stored block. -/
theorem chained_updateNode_shrink {f : GNode Block → GNode Block}
    {l : List (Nat × GNode Block)} {k : Nat}
    (hf : ∀ nd0, lookupNode l k = some nd0 → ((f nd0).weight).length ≤ nd0.weight.length)
    (hc : NodesChained l) : NodesChained (updateNode f l k) := by
  induction l with
  | nil => exact hc
  | cons hd t ih =>
    obtain ⟨k1, nd1⟩ := hd
    have hhd := (nodesChained_cons.mp hc).1
    have hct := (nodesChained_cons.mp hc).2
    rw [updateNode]
    split_ifs with h1
    · refine nodesChained_cons.mpr ⟨?_, hct⟩
      intro b hb
      have h := hhd b hb
      have h2 : (f nd1).weight.length ≤ nd1.weight.length := by
        apply hf
        rw [lookupNode, if_pos h1]
      exact ⟨h.1, by omega⟩
    · refine nodesChained_cons.mpr ⟨?_, ?_⟩
      · intro b hb
        obtain ⟨b0, hb0, he⟩ := mem_updateNode_key hb
        have h := hhd b0 hb0
        exact ⟨by omega, by omega⟩
      · refine ih ?_ hct
        intro nd0 hl0
        apply hf
        rw [lookupNode, if_neg h1]
        exact hl0

theorem tryPrevKey_none {N : Type} {l : List (Nat × GNode N)} {i : Nat}
    (h : tryPrevKey l i = none) : ∀ b ∈ l, i < b.1 := by
  induction l with
  | nil => intro b hb; cases hb
  | cons hd t ih =>
    obtain ⟨k1, nd1⟩ := hd
    rw [tryPrevKey] at h
    intro b hb
    split_ifs at h with h1
    · cases htp : tryPrevKey t i <;> simp [htp] at h
    · rcases List.mem_cons.mp hb with rfl | hb'
      · omega
      · exact ih h b hb'

theorem tryPrevKey_le {N : Type} {l : List (Nat × GNode N)} {i p : Nat}
    (h : tryPrevKey l i = some p) : p ≤ i := by
  induction l with
  | nil => simp [tryPrevKey] at h
  | cons hd t ih =>
    obtain ⟨k1, nd1⟩ := hd
    rw [tryPrevKey] at h
    split_ifs at h with h1
    · cases htp : tryPrevKey t i with
      | none =>
        simp only [htp] at h
        injection h with h2
        omega
      | some r =>
        simp only [htp] at h
        injection h with h2
        subst h2
        exact ih htp
    · exact ih h

theorem tryPrevKey_isKey {N : Type} {l : List (Nat × GNode N)} {i p : Nat}
    (h : tryPrevKey l i = some p) : ∃ nd, (p, nd) ∈ l := by
  induction l with
  | nil => simp [tryPrevKey] at h
  | cons hd t ih =>
    obtain ⟨k1, nd1⟩ := hd
    rw [tryPrevKey] at h
    split_ifs at h with h1
    · cases htp : tryPrevKey t i with
      | none =>
        simp only [htp] at h
        injection h with h2
        subst h2
        exact ⟨nd1, List.mem_cons_self _ _⟩
      | some r =>
        simp only [htp] at h
        injection h with h2
        subst h2
        obtain ⟨nd, hm⟩ := ih htp
        exact ⟨nd, List.mem_cons_of_mem _ hm⟩
    · obtain ⟨nd, hm⟩ := ih h
      exact ⟨nd, List.mem_cons_of_mem _ hm⟩

/-- On a sorted node list, `try_prev_node` returns the greatest key `≤ i`. -/
theorem tryPrevKey_max {N : Type} {l : List (Nat × GNode N)} (hs : NodesSorted l)
    {i p : Nat} (h : tryPrevKey l i = some p) :
    ∀ b ∈ l, b.1 ≤ i → b.1 ≤ p := by
  induction l with
  | nil => intro b hb; cases hb
  | cons hd t ih =>
    obtain ⟨k1, nd1⟩ := hd
    have hhd := (nodesSorted_cons.mp hs).1
    have hst := (nodesSorted_cons.mp hs).2
    rw [tryPrevKey] at h
    intro b hb hble
    split_ifs at h with h1
    · cases htp : tryPrevKey t i with
      | none =>
        simp only [htp] at h
        injection h with h2
        subst h2
        rcases List.mem_cons.mp hb with rfl | hb'
        · exact Nat.le_refl _
        · have := tryPrevKey_none htp b hb'
          omega
      | some r =>
        simp only [htp] at h
        injection h with h2
        subst h2
        rcases List.mem_cons.mp hb with rfl | hb'
        · obtain ⟨nd, hm⟩ := tryPrevKey_isKey htp
          have h3 : k1 < r := hhd (r, nd) hm
          show k1 ≤ r
          omega
        · exact ih hst htp b hb' hble
    · rcases List.mem_cons.mp hb with rfl | hb'
      · exact absurd (show k1 ≤ i from hble) h1
      · exact ih hst h b hb' hble

theorem tryNextKey_none {N : Type} {l : List (Nat × GNode N)} {i : Nat}
    (h : tryNextKey l i = none) : ∀ b ∈ l, b.1 < i := by
  induction l with
  | nil => intro b hb; cases hb
  | cons hd t ih =>
    obtain ⟨k1, nd1⟩ := hd
    rw [tryNextKey] at h
    intro b hb
    split_ifs at h with h1
    rcases List.mem_cons.mp hb with rfl | hb'
    · omega
    · exact ih h b hb'

theorem tryNextKey_ge {N : Type} {l : List (Nat × GNode N)} {i q : Nat}
    (h : tryNextKey l i = some q) : i ≤ q := by
  induction l with
  | nil => simp [tryNextKey] at h
  | cons hd t ih =>
    obtain ⟨k1, nd1⟩ := hd
    rw [tryNextKey] at h
    split_ifs at h with h1
    · injection h with h2
      omega
    · exact ih h

/-- On a sorted node list, `try_next_node` returns the least key `≥ i`. -/
theorem tryNextKey_min {N : Type} {l : List (Nat × GNode N)} (hs : NodesSorted l)
    {i q : Nat} (h : tryNextKey l i = some q) :
    ∀ b ∈ l, i ≤ b.1 → q ≤ b.1 := by
  induction l with
  | nil => intro b hb; cases hb
  | cons hd t ih =>
    obtain ⟨k1, nd1⟩ := hd
    have hhd := (nodesSorted_cons.mp hs).1
    have hst := (nodesSorted_cons.mp hs).2
    rw [tryNextKey] at h
    intro b hb hbi
    split_ifs at h with h1
    · injection h with h2
      subst h2
      rcases List.mem_cons.mp hb with rfl | hb'
      · exact Nat.le_refl _
      · have := hhd b hb'
        omega
    · rcases List.mem_cons.mp hb with rfl | hb'
      · exact absurd (show i ≤ k1 from hbi) h1
      · exact ih hst h b hb' hbi

theorem RRes_bind_ok {α β : Type} {x : RRes α} {f : α → RRes β} {b : β}
    (h : x >>= f = RRes.ok b) : ∃ a, x = RRes.ok a ∧ f a = RRes.ok b := by
  cases x with
  | ok a => exact ⟨a, rfl, h⟩
  | err e => exact RRes.noConfusion h
  | fail => exact RRes.noConfusion h
  | fuelOut => exact RRes.noConfusion h

/-- `add_edge` only mutates the intrusive pointer fields of its two
endpoint nodes, so it preserves the chain invariant. -/
theorem addEdge_chained {g : RGraph} {w : BranchKind} {s d : Nat} {g' : RGraph}
    (hc : NodesChained g.nodes) (h : g.addEdge w s d = RRes.ok g') :
    NodesChained g'.nodes := by
  simp only [Graph.addEdge] at h
  split at h
  · exact RRes.noConfusion h
  · split at h
    · exact RRes.noConfusion h
    · injection h with h3
      subst h3
      exact chained_updateNode_shrink (fun nd0 _ => Nat.le_refl _)
        (chained_updateNode_shrink (fun nd0 _ => Nat.le_refl _) hc)

/-- The node-map shape of a successful `split_node`: the old node keeps the
first half of its block and loses its outgoing list, and a fresh node at
`k'` holds the second half and inherits the old outgoing list. -/
theorem splitNode_ok_nodes {N E : Type} {g : Graph N E} {k k' : Nat}
    {sp : N → N × N} {g' : Graph N E}
    (h : g.splitNode k k' sp = RRes.ok g') :
    ∃ nd, lookupNode g.nodes k = some nd ∧
      g'.nodes = updateNode (fun nd0 => { nd0 with nextOut := nd.nextOut })
        (insertSorted k' ⟨(sp nd.weight).2, none, none⟩
          (updateNode (fun nd0 => { nd0 with weight := (sp nd.weight).1, nextOut := none })
            g.nodes k)) k' := by
  simp only [Graph.splitNode] at h
  split at h
  · exact RRes.noConfusion h
  · rename_i nd heq
    refine ⟨nd, heq, ?_⟩
    split at h
    · exact RRes.noConfusion h
    · split at h
      · injection h with h3
        rw [← h3]
      · exact RRes.noConfusion h
      · exact RRes.noConfusion h
      · exact RRes.noConfusion h

/-- Replacing the block at `p` by a shorter prefix and inserting the rest
at a key `idx` strictly past every key `≤ idx` keeps the map chained. -/
theorem chained_split_update {l : List (Nat × GNode Block)} {p idx : Nat} {nd : GNode Block}
    {w1 w2 : Block} {o1 o2 o3 : Option Nat}
    (hc : NodesChained l)
    (hl : lookupNode l p = some nd)
    (hmax : ∀ b ∈ l, b.1 ≤ idx → b.1 ≤ p)
    (hlt : p < idx)
    (hw1a : w1.length ≤ idx - p)
    (hw1b : w1.length ≤ nd.weight.length)
    (hw2 : w2.length ≤ nd.weight.length - (idx - p)) :
    NodesChained (insertSorted idx ⟨w2, o2, o3⟩
      (updateNode (fun nd0 => { nd0 with weight := w1, nextOut := o1 }) l p)) := by
  have hc1 : NodesChained
      (updateNode (fun nd0 => { nd0 with weight := w1, nextOut := o1 }) l p) := by
    refine chained_updateNode_shrink ?_ hc
    intro nd0 hl0
    rw [hl] at hl0
    injection hl0 with h0
    subst h0
    exact hw1b
  have hs1 : NodesSorted
      (updateNode (fun nd0 => { nd0 with weight := w1, nextOut := o1 }) l p) :=
    nodesChained_sorted hc1
  have hl1 : lookupNode
      (updateNode (fun nd0 => { nd0 with weight := w1, nextOut := o1 }) l p) p
      = some { nd with weight := w1, nextOut := o1 } := by
    rw [lookupNode_updateNode, if_pos rfl, hl]
    rfl
  have hmem1 : (p, ({ nd with weight := w1, nextOut := o1 } : GNode Block))
      ∈ updateNode (fun nd0 => { nd0 with weight := w1, nextOut := o1 }) l p :=
    lookupNode_mem hl1
  have hpm : (p, nd) ∈ l := lookupNode_mem hl
  refine chained_insertSorted hc1 ?_ ?_
  · rintro ⟨bk, bnd⟩ hb hblt
    obtain ⟨b0, hb0, hke⟩ := mem_updateNode_key hb
    have hbp : bk ≤ p := by
      have := hmax b0 hb0 (by omega)
      omega
    by_cases hbpe : bk = p
    · subst hbpe
      have hlb := mem_lookupNode_sorted hs1 hb
      rw [hl1] at hlb
      injection hlb with h0
      subst h0
      show bk + w1.length ≤ idx
      omega
    · have hrel := chained_rel_of_mem hc1 hb hmem1 (show bk < p by omega)
      show bk + bnd.weight.length ≤ idx
      have : bk + bnd.weight.length ≤ p := hrel
      omega
  · rintro ⟨bk, bnd⟩ hb hnlt
    obtain ⟨b0, hb0, hke⟩ := mem_updateNode_key hb
    have hgt : idx < bk := by
      rcases Nat.lt_or_ge bk idx with h | h
      · omega
      · rcases Nat.eq_or_lt_of_le h with h' | h'
        · have := hmax b0 hb0 (by omega)
          omega
        · omega
    refine ⟨hgt, ?_⟩
    show idx + w2.length ≤ bk
    have hke' : b0.1 = bk := hke
    have hrel : p + nd.weight.length ≤ b0.1 :=
      chained_rel_of_mem hc hpm hb0 (show p < b0.1 by omega)
    omega

/-- `split_node`, as invoked by the resolver at the maximal node key `p`
below `idx`, preserves the chain invariant. -/
theorem splitNode_chained {g : RGraph} {p idx : Nat} {g1 : RGraph}
    (hc : NodesChained g.nodes)
    (hmax : ∀ b ∈ g.nodes, b.1 ≤ idx → b.1 ≤ p)
    (hlt : p < idx)
    (hsp : g.splitNode p idx (fun b => (List.take (idx - p) b, List.drop (idx - p) b))
      = RRes.ok g1) :
    NodesChained g1.nodes := by
  obtain ⟨nd, hl, hn⟩ := splitNode_ok_nodes hsp
  rw [hn]
  refine chained_updateNode_shrink (fun nd0 _ => Nat.le_refl _) ?_
  refine chained_split_update hc hl hmax hlt ?_ ?_ ?_
  · show (List.take (idx - p) nd.weight).length ≤ idx - p
    rw [List.length_take]
    omega
  · show (List.take (idx - p) nd.weight).length ≤ nd.weight.length
    rw [List.length_take]
    omega
  · show (List.drop (idx - p) nd.weight).length ≤ nd.weight.length - (idx - p)
    rw [List.length_drop]

set_option maxHeartbeats 4000000 in
/-- The scan loop of `recurse_block` preserves the chain invariant: every
path through it adds at most one node, at `start`, whose block ends at or
before both the end of the bytecode and the next pre-existing node key,
and otherwise only adds edges or recurses. -/
theorem scanBlock_chained (recurse : RGraph → Nat → RRes RGraph) (bc : List Nat)
    (start : Nat) (nb : Option Nat) (g : RGraph)
    (hrec : ∀ g0 i g1, NodesChained g0.nodes → recurse g0 i = RRes.ok g1 →
      NodesChained g1.nodes)
    (hc : NodesChained g.nodes)
    (H1 : ∀ b ∈ g.nodes, b.1 < start → b.1 + b.2.weight.length ≤ start)
    (H2 : ∀ b ∈ g.nodes, b.1 ≠ start)
    (hnb : nb = tryNextKey g.nodes start) :
    ∀ (rem : Nat) (prevCond : Option Nat) (idx : Nat) (g' : RGraph),
      start ≤ idx →
      (∀ j, start ≤ j → j < idx → nb ≠ some j) →
      (idx + rem = bc.length ∨ (rem = 0 ∧ bc.length < start)) →
      scanBlock recurse bc start nb g prevCond idx rem = RRes.ok g' →
      NodesChained g'.nodes := by
  have hsorted : NodesSorted g.nodes := nodesChained_sorted hc
  have hEbound : ∀ E : Nat, (∀ j, start ≤ j → j < E → nb ≠ some j) →
      ∀ b ∈ g.nodes, ¬ b.1 < start → E ≤ b.1 := by
    intro E hE b hb hnlt
    cases hnbv : nb with
    | none =>
      have h0 : tryNextKey g.nodes start = none := by rw [← hnb, hnbv]
      have := tryNextKey_none h0 b hb
      omega
    | some q =>
      have h0 : tryNextKey g.nodes start = some q := by rw [← hnb, hnbv]
      have hq1 : start ≤ q := tryNextKey_ge h0
      have hq2 : q ≤ b.1 := tryNextKey_min hsorted h0 b hb (by omega)
      have hq3 : E ≤ q := by
        by_contra hcon
        exact hE q hq1 (by omega) hnbv
      omega
  have hInsGen : ∀ (E : Nat) (L : Block) (o1 o2 : Option Nat),
      start + L.length = E →
      (∀ b ∈ g.nodes, ¬ b.1 < start → E ≤ b.1) →
      NodesChained (insertSorted start ⟨L, o1, o2⟩ g.nodes) := by
    intro E L o1 o2 hE hb2
    refine chained_insertSorted hc H1 ?_
    intro b hb hnlt
    have h3 := H2 b hb
    have h4 := hb2 b hb hnlt
    refine ⟨by omega, ?_⟩
    show start + L.length ≤ b.1
    omega
  intro rem
  induction rem with
  | zero =>
    intro prevCond idx g' hsi H4 H5 hok
    rw [scanBlock] at hok
    cases hsf : sliceFrom bc start with
    | ok blk =>
      simp only [hsf] at hok
      injection hok with h3
      subst h3
      have hsl : start ≤ bc.length ∧ blk = bc.drop start := by
        rw [sliceFrom] at hsf
        by_cases hcl : start ≤ bc.length
        · rw [if_pos hcl] at hsf
          injection hsf with h4
          exact ⟨hcl, h4.symm⟩
        · rw [if_neg hcl] at hsf
          exact RRes.noConfusion hsf
      obtain ⟨hsl1, hsl2⟩ := hsl
      have hidx : idx = bc.length := by omega
      show NodesChained (insertSorted start ⟨blk, none, none⟩ g.nodes)
      refine hInsGen bc.length blk none none ?_ (hEbound bc.length ?_)
      · rw [hsl2, List.length_drop]
        omega
      · intro j hj1 hj2
        exact H4 j hj1 (by omega)
    | err e =>
      simp only [hsf] at hok
      exact RRes.noConfusion hok
    | fail =>
      simp only [hsf] at hok
      exact RRes.noConfusion hok
    | fuelOut =>
      simp only [hsf] at hok
      exact RRes.noConfusion hok
  | succ rem ih =>
    intro prevCond idx g' hsi H4 H5 hok
    rw [scanBlock] at hok
    by_cases hnbeq : some idx = nb
    · rw [if_pos hnbeq] at hok
      cases hae : (g.insertNode start (sliceExcl bc start idx)).addEdge
          BranchKind.Unconditional start idx with
      | ok g2 =>
        simp only [hae] at hok
        injection hok with h3
        subst h3
        refine addEdge_chained ?_ hae
        have hidxlt : idx < bc.length := by omega
        show NodesChained (insertSorted start ⟨sliceExcl bc start idx, none, none⟩ g.nodes)
        refine hInsGen idx _ none none ?_ ?_
        · show start + (sliceExcl bc start idx).length = idx
          rw [sliceExcl, List.length_take, List.length_drop]
          omega
        · intro b hb hnlt
          have h0 : tryNextKey g.nodes start = some idx := by rw [← hnb, ← hnbeq]
          have h3 := H2 b hb
          exact tryNextKey_min hsorted h0 b hb (by omega)
      | err e =>
        simp only [hae] at hok
        exact RRes.noConfusion hok
      | fail =>
        simp only [hae] at hok
        exact RRes.noConfusion hok
      | fuelOut =>
        simp only [hae] at hok
        exact RRes.noConfusion hok
    · rw [if_neg hnbeq] at hok
      have hidxlt : idx < bc.length := by omega
      have hsi' : start ≤ idx + 1 := by omega
      have H4' : ∀ j, start ≤ j → j < idx + 1 → nb ≠ some j := by
        intro j hj1 hj2
        rcases Nat.lt_succ_iff_lt_or_eq.mp hj2 with h | h
        · exact H4 j hj1 h
        · subst h
          intro hcon
          exact hnbeq hcon.symm
      have H5' : idx + 1 + rem = bc.length ∨ (rem = 0 ∧ bc.length < start) := by omega
      have hins : NodesChained
          (insertSorted start ⟨sliceIncl bc start idx, none, none⟩ g.nodes) := by
        refine hInsGen (idx + 1) _ none none ?_ (hEbound (idx + 1) H4')
        show start + (sliceIncl bc start idx).length = idx + 1
        rw [sliceIncl, List.length_take, List.length_drop]
        omega
      split at hok
      · exact RRes.noConfusion hok
      · split at hok
        · exact RRes.noConfusion hok
        · exact RRes.noConfusion hok
        · exact RRes.noConfusion hok
        · split at hok
          all_goals
            first
            | exact RRes.noConfusion hok
            | exact ih (some idx) (idx + 1) g' hsi' H4' H5' hok
            | exact ih prevCond (idx + 1) g' hsi' H4' H5' hok
            | -- the branching arms (`ISNEXT`, the loop arms, `UCLO`, `JMP`):
              -- one or two recursive calls, each followed by `try_prev_node`
              -- and `add_edge`
              (obtain ⟨g2, hr2, hok⟩ := RRes_bind_ok hok
               have hc2 := hrec _ _ _ hins hr2
               split at hok <;>
                 first
                 | exact RRes.noConfusion hok
                 | (obtain ⟨g3, hr3, hok⟩ := RRes_bind_ok hok
                    first
                    | (have h3 : RRes.ok g3 = RRes.ok g' := hok
                       injection h3 with h4
                       subst h4
                       exact addEdge_chained hc2 hr3)
                    | (have hc3 := addEdge_chained hc2 hr3
                       obtain ⟨g4, hr4, hok⟩ := RRes_bind_ok hok
                       have hc4 := hrec _ _ _ hc3 hr4
                       split at hok <;>
                         first
                         | exact RRes.noConfusion hok
                         | (obtain ⟨g5, hr5, hok⟩ := RRes_bind_ok hok
                            have h3 : RRes.ok g5 = RRes.ok g' := hok
                            injection h3 with h4
                            subst h4
                            exact addEdge_chained hc4 hr5)))
                 | (split at hok <;>
                     first
                     | exact RRes.noConfusion hok
                     | (obtain ⟨g3, hr3, hok⟩ := RRes_bind_ok hok
                        first
                        | (have h3 : RRes.ok g3 = RRes.ok g' := hok
                           injection h3 with h4
                           subst h4
                           exact addEdge_chained hc2 hr3)
                        | (have hc3 := addEdge_chained hc2 hr3
                           obtain ⟨g4, hr4, hok⟩ := RRes_bind_ok hok
                           have hc4 := hrec _ _ _ hc3 hr4
                           split at hok <;>
                             first
                             | exact RRes.noConfusion hok
                             | (obtain ⟨g5, hr5, hok⟩ := RRes_bind_ok hok
                                have h3 : RRes.ok g5 = RRes.ok g' := hok
                                injection h3 with h4
                                subst h4
                                exact addEdge_chained hc4 hr5)))))
            | -- the `RET*` arms: look ahead for a following `JMP`, else close
              -- the block at the current instruction
              (split at hok <;>
                first
                | (have h3 : RRes.ok (g.insertNode start (sliceIncl bc start idx))
                      = RRes.ok g' := hok
                   injection h3 with h4
                   subst h4
                   exact hins)
                | (split at hok <;>
                    first
                    | exact RRes.noConfusion hok
                    | (split at hok <;>
                        first
                        | exact RRes.noConfusion hok
                        | (split at hok <;>
                            first
                            | exact ih prevCond (idx + 1) g' hsi' H4' H5' hok
                            | (have h3 : RRes.ok
                                  (g.insertNode start (sliceIncl bc start idx))
                                  = RRes.ok g' := hok
                               injection h3 with h4
                               subst h4
                               exact hins)))))

/-- `recurse_block` preserves the chain invariant of the node map. -/
theorem recurseBlock_chained (bc : List Nat) :
    ∀ (fuel : Nat) (g : RGraph) (idx : Nat) (g' : RGraph),
      NodesChained g.nodes →
      recurseBlock fuel bc g idx = RRes.ok g' →
      NodesChained g'.nodes := by
  intro fuel
  induction fuel with
  | zero =>
    intro g idx g' hc hok
    rw [recurseBlock] at hok
    exact RRes.noConfusion hok
  | succ fuel ih =>
    intro g idx g' hc hok
    have hsorted : NodesSorted g.nodes := nodesChained_sorted hc
    rw [recurseBlock] at hok
    cases htp : tryPrevKey g.nodes idx with
    | none =>
      simp only [htp] at hok
      refine scanBlock_chained (recurseBlock fuel bc) bc idx (tryNextKey g.nodes idx) g
        (fun g0 i g1 hc0 h0 => ih g0 i g1 hc0 h0) hc ?_ ?_ rfl
        (bc.length - idx) none idx g' (Nat.le_refl idx) ?_ ?_ hok
      · intro b hb hblt
        have := tryPrevKey_none htp b hb
        omega
      · intro b hb
        have := tryPrevKey_none htp b hb
        omega
      · intro j hj1 hj2
        exact absurd hj2 (by omega)
      · omega
    | some p =>
      simp only [htp] at hok
      by_cases hpe : idx = p
      · rw [if_pos hpe] at hok
        injection hok with h3
        subst h3
        exact hc
      · rw [if_neg hpe] at hok
        have hple : p ≤ idx := tryPrevKey_le htp
        have hplt : p < idx := by omega
        cases hwp : g.nodeWeight p with
        | none =>
          simp only [hwp] at hok
          exact RRes.noConfusion hok
        | some block =>
          simp only [hwp] at hok
          have hlp : ∃ ndp, lookupNode g.nodes p = some ndp ∧ ndp.weight = block := by
            rw [Graph.nodeWeight] at hwp
            cases hll : lookupNode g.nodes p with
            | none => rw [hll] at hwp; simp at hwp
            | some ndp =>
              rw [hll] at hwp
              simp only [Option.map] at hwp
              injection hwp with h4
              exact ⟨ndp, rfl, h4⟩
          obtain ⟨ndp, hlp1, hlp2⟩ := hlp
          by_cases hbl : block.length > idx - p
          · rw [if_pos hbl] at hok
            obtain ⟨g1, hs1, hok⟩ := RRes_bind_ok hok
            have hc1 := splitNode_chained hc (tryPrevKey_max hsorted htp) hplt hs1
            obtain ⟨g2, ha2, hok⟩ := RRes_bind_ok hok
            have h3 : RRes.ok g2 = RRes.ok g' := hok
            injection h3 with h4
            subst h4
            exact addEdge_chained hc1 ha2
          · rw [if_neg hbl] at hok
            refine scanBlock_chained (recurseBlock fuel bc) bc idx (tryNextKey g.nodes idx) g
              (fun g0 i g1 hc0 h0 => ih g0 i g1 hc0 h0) hc ?_ ?_ rfl
              (bc.length - idx) none idx g' (Nat.le_refl idx) ?_ ?_ hok
            · rintro ⟨bk, bnd⟩ hb hblt
              have hbp : bk ≤ p := tryPrevKey_max hsorted htp (bk, bnd) hb (by omega)
              by_cases hbpe : bk = p
              · subst hbpe
                have hlb := mem_lookupNode_sorted hsorted hb
                rw [hlp1] at hlb
                injection hlb with h4
                subst h4
                show bk + ndp.weight.length ≤ idx
                rw [hlp2]
                omega
              · have hpm : (p, ndp) ∈ g.nodes := lookupNode_mem hlp1
                have hrel : bk + bnd.weight.length ≤ p :=
                  chained_rel_of_mem hc hb hpm (by omega)
                show bk + bnd.weight.length ≤ idx
                omega
            · intro b hb
              intro hcon
              have := tryPrevKey_max hsorted htp b hb (Nat.le_of_eq hcon)
              omega
            · intro j hj1 hj2
              exact absurd hj2 (by omega)
            · omega

/-- In a chained node map, the ranges of two distinct keys are disjoint. -/
theorem chained_disjoint {l : List (Nat × GNode Block)} (hc : NodesChained l)
    {k k' : Nat} {nd nd' : GNode Block}
    (h : (k, nd) ∈ l) (h' : (k', nd') ∈ l) (hne : k ≠ k') :
    k + nd.weight.length ≤ k' ∨ k' + nd'.weight.length ≤ k := by
  rcases Nat.lt_or_ge k k' with hlt | hge
  · exact Or.inl (chained_rel_of_mem hc h h' hlt)
  · exact Or.inr (chained_rel_of_mem hc h' h (by omega))

/-- C1: the basic-block graph built by `resolve_basic_blocks` assigns each
node a block of consecutive instructions starting at its key, and the
instruction ranges of any two distinct nodes are disjoint: for node keys
`k ≠ k'`, either the block at `k` (of `nd.weight.length` instructions)
ends at or before `k'`, or the block at `k'` ends at or before `k`. -/
theorem C1_resolver_blocks_disjoint (bc : List Nat) (g : RGraph)
    (h : resolveBasicBlocks bc = RRes.ok g)
    (k k' : Nat) (nd nd' : GNode Block)
    (hm : (k, nd) ∈ g.nodes) (hm' : (k', nd') ∈ g.nodes) (hne : k ≠ k') :
    k + nd.weight.length ≤ k' ∨ k' + nd'.weight.length ≤ k := by
  have hc : NodesChained g.nodes :=
    recurseBlock_chained bc (bc.length + 2) Graph.new 0 g List.Pairwise.nil h
  exact chained_disjoint hc hm hm' hne

theorem C1_resolver_blocks_disjoint_witness :
    0 + [2147483736].length ≤ 1 ∨ 1 + ([] : List Nat).length ≤ 0 :=
  C1_resolver_blocks_disjoint [2147483736]
    ⟨[(0, ⟨[2147483736], some 0, none⟩), (1, ⟨[], none, some 0⟩)],
      [⟨BranchKind.Unconditional, 0, 1, none, none⟩]⟩
    (by decide)
    0 1 ⟨[2147483736], some 0, none⟩ ⟨[], none, some 0⟩
    (by decide) (by decide) (by decide)

end JILUA
